import Mathlib

/-!
Verification of the Jira batch-synchronisation scripts.

The repository holds two Python scripts:
* `get_all_issues.py` — a one-shot reporter: one search request, prints one
  formatted line per returned issue.
* `jira_script_get.py` — `sync_jira_statuses`: selects local `CurrentSwState`
  rows with a non-empty `jira_ticket`, batches the ticket keys (50 per call),
  queries Jira once per batch via `_fetch_status_for`, and upserts
  `JiraStatus` rows (create immediately via `get_or_create`, queue updates and
  apply them with one `bulk_update` at the end).

This file embeds those scripts shallowly: the HTTP layer is an oracle
`fetch : List String → Except PyErr (List RawIssue)`; Python dicts are
association lists with insertion-order/overwrite semantics; the two ORM
tables are plain lists of records; Python exceptions are an `Except`
error channel.
-/

set_option autoImplicit false
set_option maxRecDepth 40000

namespace JiraSync

/-- Python-level failures the scripts can raise: `KeyError` from a missing
dict field, `MultipleObjectsReturned` from `get_or_create`, and transport
errors (`HTTPError` / `RequestException`) from the HTTP call. -/
inductive PyErr where
  | keyError : PyErr
  | multipleObjects : PyErr
  | transport : Nat → PyErr
  deriving DecidableEq

/-- View of `Except` as a sum, used to derive decidable equality. -/
def exceptToSum {ε α : Type} : Except ε α → ε ⊕ α
  | .error e => .inl e
  | .ok a => .inr a

instance {ε α : Type} [DecidableEq ε] [DecidableEq α] : DecidableEq (Except ε α) :=
  fun a b =>
    decidable_of_iff (exceptToSum a = exceptToSum b)
      (by cases a <;> cases b <;> simp [exceptToSum])

/-- Python dict lookup `k in d` / `d[k]` on an association list: the value of
the first (and, as maintained by `dictInsert`, only) entry for the key. -/
def dictGet? {α β : Type} [DecidableEq α] : List (α × β) → α → Option β
  | [], _ => none
  | p :: rest, k => if p.1 = k then some p.2 else dictGet? rest k

/-- Python dict insert `d[k] = v`: overwrite in place if the key exists
(keeping its insertion position), otherwise append. -/
def dictInsert {α β : Type} [DecidableEq α] (d : List (α × β)) (k : α) (v : β) :
    List (α × β) :=
  if d.any (fun p => p.1 = k) then
    d.map (fun p => if p.1 = k then (k, v) else p)
  else
    d ++ [(k, v)]

/-- Python `dict[k]` access on an optional field: `KeyError` when absent. -/
def pyGet {β : Type} : Option β → Except PyErr β
  | some b => .ok b
  | none => .error .keyError

/-- Characters stripped by Python `str.strip()` (ASCII whitespace). -/
def isPyWs (c : Char) : Bool :=
  c = ' ' || c = '\t' || c = '\n' || c = '\r' || c = '\x0b' || c = '\x0c'

/-- Python `str.strip()`: drop leading and trailing whitespace. -/
def pyStrip (s : String) : String :=
  String.mk (((s.data.dropWhile isPyWs).reverse.dropWhile isPyWs).reverse)

/-- Fuel-driven worker for `chunks`; the fuel is an upper bound on the number
of elements still to consume, so `chunks` can pass `l.length` and stay
structurally recursive (hence computable by `decide`). -/
def chunksF {α : Type} : Nat → List α → Nat → List (List α)
  | 0, _, _ => []
  | fuel + 1, l, n =>
    if n = 0 ∨ l.isEmpty then []
    else l.take n :: chunksF fuel (l.drop n) n

/-- Embedding of `_chunks(iterable, size)` (`jira_script_get.py:34-38`):
`list(itertools.islice(it, size))` is `take`, the loop continues on the rest;
a falsy (empty) slice — empty input or `size = 0` — stops the generator. -/
def chunks {α : Type} (l : List α) (n : Nat) : List (List α) :=
  chunksF l.length l n

/-- `BATCH_SIZE = 50` (`jira_script_get.py:31`). -/
def BATCH_SIZE : Nat := 50

/-- Embedding of `_build_jql(keys)` (`jira_script_get.py:41-44`). -/
def buildJql (keys : List String) : String :=
  "key IN (" ++ String.intercalate ", " keys ++ ")"

/-- A `status` object of a response item; `name` may be absent.  An absent or
empty `status` dict (both falsy in Python) is modelled as `none` at the
`RawFields.status` level. -/
structure RawStatus where
  name : Option String
  deriving DecidableEq

/-- A `project` object of a response item; `key` may be absent. -/
structure RawProject where
  key : Option String
  deriving DecidableEq

/-- The `fields` object of a response item; each sub-field may be absent. -/
structure RawFields where
  status : Option RawStatus
  project : Option RawProject
  summary : Option String
  deriving DecidableEq

/-- One item of the `issues` array of a search response; `key` and `fields`
may be absent (missing dict entries). -/
structure RawIssue where
  key : Option String
  fields : Option RawFields
  deriving DecidableEq

/-- `issue.get("fields", {}).get("status")` — the guard expression of the
dict comprehension in `_fetch_status_for` (`jira_script_get.py:89`). -/
def statusOf (i : RawIssue) : Option RawStatus :=
  i.fields.bind RawFields.status

/-- Worker for `statusMapOf`: the dict comprehension builds its dict left to
right, so the accumulator is threaded through.  Items whose guard
`issue.get("fields", {}).get("status")` is falsy are skipped; items passing
the guard raise `KeyError` if `issue["key"]` or `...["status"]["name"]` is
missing. -/
def statusMapGo (acc : List (String × String)) :
    List RawIssue → Except PyErr (List (String × String))
  | [] => .ok acc
  | i :: rest =>
    match statusOf i with
    | none => statusMapGo acc rest
    | some st =>
      match i.key with
      | none => .error .keyError
      | some k =>
        match st.name with
        | none => .error .keyError
        | some nm => statusMapGo (dictInsert acc k nm) rest

/-- The dict comprehension of `_fetch_status_for` (`jira_script_get.py:86-90`)
applied to the parsed `issues` array. -/
def statusMapOf (issues : List RawIssue) : Except PyErr (List (String × String)) :=
  statusMapGo [] issues

/-- Embedding of `_fetch_status_for(keys, session)`
(`jira_script_get.py:63-90`).  The HTTP GET, `raise_for_status` and `.json()`
are abstracted into the oracle `fetch`; an `HTTPError` / `RequestException`
is logged and re-raised, i.e. propagated unchanged. -/
def fetchStatusFor (fetch : List String → Except PyErr (List RawIssue))
    (keys : List String) : Except PyErr (List (String × String)) :=
  match fetch keys with
  | .error e => .error e
  | .ok issues => statusMapOf issues

/-- Python `f"{s:w}"` for a string `s`: left-justified, padded with spaces on
the right up to width `w`. -/
def padTo (w : Nat) (s : String) : String :=
  s ++ String.mk (List.replicate (w - s.length) ' ')

/-- One iteration of the reporter's print loop (`get_all_issues.py:27-32`):
the four dict accesses in source order (each raising `KeyError` when the
entry is missing), then the f-string
`f"[{proj}] {key:12}  {status:15}  {summary}"`. -/
def reportLine (i : RawIssue) : Except PyErr String := do
  let key ← pyGet i.key
  let f ← pyGet i.fields
  let pr ← pyGet f.project
  let proj ← pyGet pr.key
  let summary ← pyGet f.summary
  let st ← pyGet f.status
  let status ← pyGet st.name
  .ok ("[" ++ proj ++ "] " ++ padTo 12 key ++ "  " ++ padTo 15 status ++ "  " ++ summary)

/-- The reporter's loop over `data.get("issues", [])`: lines printed so far,
and the error that interrupted the loop, if any.  A raising item aborts the
loop; earlier lines are already printed. -/
def report : List RawIssue → List String × Option PyErr
  | [] => ([], none)
  | i :: rest =>
    match reportLine i with
    | .error e => ([], some e)
    | .ok line =>
      match report rest with
      | (ls, e) => (line :: ls, e)

/-- A `CurrentSwState` row (fields used by the script: `id`, `run_id`,
`jira_ticket`, the latter nullable). -/
structure CurrentSwState where
  id : Nat
  run_id : Nat
  jira_ticket : Option String
  deriving DecidableEq

/-- A `JiraStatus` row: foreign key `cve_id` to the owning `CurrentSwState`
and the stored status text. -/
structure JiraStatus where
  cve_id : Nat
  jira_status : String
  deriving DecidableEq

/-- The queryset of `sync_jira_statuses` (`jira_script_get.py:106-110`):
`filter(run_id=run_id).exclude(jira_ticket__isnull=True | jira_ticket__exact="")`. -/
def selectStates (run : Nat) (cur : List CurrentSwState) : List CurrentSwState :=
  cur.filter (fun s => s.run_id == run && s.jira_ticket != none && s.jira_ticket != some "")

/-- The dict comprehension `{state.id: state.jira_ticket.strip() for state in
states}` (`jira_script_get.py:121`).  Every selected row has a non-null
ticket, so reading the optional field with default `""` agrees with the
source on all reachable inputs. -/
def idToTicket (states : List CurrentSwState) : List (Nat × String) :=
  states.foldl (fun d s => dictInsert d s.id (pyStrip (s.jira_ticket.getD ""))) []

/-- In-memory state of the driver's loop: the `JiraStatus` table (creates are
saved immediately by `get_or_create`) and the `to_update` / `to_create`
lists. -/
structure SyncSt where
  db : List JiraStatus
  upd : List JiraStatus
  crs : List JiraStatus
  deriving DecidableEq

/-- The rows of the `JiraStatus` table owned by `cid` — what
`JiraStatus.objects.get(cve_id=cid)` filters on. -/
def rowsFor (cid : Nat) (db : List JiraStatus) : List JiraStatus :=
  db.filter (fun j => j.cve_id == cid)

/-- One iteration of the inner loop (`jira_script_get.py:132-145`): skip when
the ticket is not in the fetched map, otherwise
`get_or_create(cve_id=state_id, defaults={"jira_status": status_val})` —
create-and-save when no row exists, queue an update when one row exists,
`MultipleObjectsReturned` when several do. -/
def processEntry (sm : List (String × String)) (st : SyncSt) (p : Nat × String) :
    SyncSt × Option PyErr :=
  match dictGet? sm p.2 with
  | none => (st, none)
  | some sv =>
    match rowsFor p.1 st.db with
    | [] => (⟨st.db ++ [⟨p.1, sv⟩], st.upd, st.crs ++ [⟨p.1, sv⟩]⟩, none)
    | [_] => (⟨st.db, st.upd ++ [⟨p.1, sv⟩], st.crs⟩, none)
    | _ => (st, some .multipleObjects)

/-- The inner `for state_id, ticket in id_to_ticket.items()` loop — note the
source iterates the *full* mapping on every batch.  An exception aborts the
loop with the state reached so far (earlier creates are already saved). -/
def processBatch (sm : List (String × String)) :
    List (Nat × String) → SyncSt → SyncSt × Option PyErr
  | [], st => (st, none)
  | p :: rest, st =>
    match processEntry sm st p with
    | (st', none) => processBatch sm rest st'
    | (st', some e) => (st', some e)

/-- The outer `for batch in _chunks(...)` loop (`jira_script_get.py:124-145`):
per batch, fetch the statuses (re-raising any exception, which aborts the
run) then run the inner loop.  Returns the final state, the batches actually
sent to Jira, and the first error, if any. -/
def runBatches (fetch : List String → Except PyErr (List RawIssue))
    (idt : List (Nat × String)) :
    List (List String) → SyncSt → SyncSt × List (List String) × Option PyErr
  | [], st => (st, [], none)
  | b :: rest, st =>
    match fetchStatusFor fetch b with
    | .error e => (st, [b], some e)
    | .ok sm =>
      match processBatch sm idt st with
      | (st', none) =>
        match runBatches fetch idt rest st' with
        | (stf, qs, r) => (stf, b :: qs, r)
      | (st', some e) => (st', [b], some e)

/-- `JiraStatus.objects.bulk_update(to_update, ["jira_status"])`
(`jira_script_get.py:150`): write each queued object's `jira_status` back to
its row, in queue order. -/
def bulkUpdate (db : List JiraStatus) (ups : List JiraStatus) : List JiraStatus :=
  ups.foldl
    (fun db u => db.map (fun j => if j.cve_id == u.cve_id then ⟨j.cve_id, u.jira_status⟩ else j))
    db

/-- Observable outcome of one `sync_jira_statuses` call: the final
`JiraStatus` table, the batches sent to Jira (in order), and either the
`(created, updated)` counts it logs or the exception it raises. -/
structure SyncOutcome where
  db : List JiraStatus
  queries : List (List String)
  result : Except PyErr (Nat × Nat)

/-- Steps 2–4 of the driver for a non-empty selection: run the batches and,
when no exception interrupted them, flush the queued updates with one
`bulk_update` inside the final transaction and log the counts.  On an
exception the creates already saved stay in the table and the queued updates
are lost. -/
def syncCore (fetch : List String → Except PyErr (List RawIssue))
    (idt : List (Nat × String)) (bs : List (List String))
    (jdb : List JiraStatus) : SyncOutcome :=
  match runBatches fetch idt bs ⟨jdb, [], []⟩ with
  | (stf, qs, none) => ⟨bulkUpdate stf.db stf.upd, qs, .ok (stf.crs.length, stf.upd.length)⟩
  | (stf, qs, some e) => ⟨stf.db, qs, .error e⟩

/-- Embedding of `sync_jira_statuses(run_id)` (`jira_script_get.py:93-157`):
select, early-return when nothing qualifies, then batch the stripped tickets
with `BATCH_SIZE` and run the fetch-and-upsert loop. -/
def syncJiraStatuses (fetch : List String → Except PyErr (List RawIssue))
    (run : Nat) (cur : List CurrentSwState) (jdb : List JiraStatus) : SyncOutcome :=
  let states := selectStates run cur
  if states.isEmpty then ⟨jdb, [], .ok (0, 0)⟩
  else
    let idt := idToTicket states
    syncCore fetch idt (chunks (idt.map Prod.snd) BATCH_SIZE) jdb

/-- Latest queued update for a row: the value `bulk_update` leaves in place.
Later queue entries win. -/
def lastVal : List JiraStatus → Nat → Option String
  | [], _ => none
  | u :: ups, cid =>
    match lastVal ups cid with
    | some v => some v
    | none => if u.cve_id == cid then some u.jira_status else none

/-- Status a ticket ends up with across a run's batch maps: the value from
the last batch whose fetched map contains the ticket. -/
def lastLook : List (List (String × String)) → String → Option String
  | [], _ => none
  | sm :: rest, t =>
    match lastLook rest t with
    | some v => some v
    | none => dictGet? sm t

/-- The per-batch status maps of a run, when every fetch and parse succeeds. -/
def batchMaps (fetch : List String → Except PyErr (List RawIssue)) :
    List (List String) → Option (List (List (String × String)))
  | [] => some []
  | b :: rest =>
    match fetchStatusFor fetch b with
    | .error _ => none
    | .ok sm => (batchMaps fetch rest).map (sm :: ·)

/-- At most one `JiraStatus` row per owning id — the table invariant under
which `get_or_create` never raises `MultipleObjectsReturned`. -/
def UniqueRows (db : List JiraStatus) : Prop :=
  ∀ cid, (rowsFor cid db).length ≤ 1

/-- Rows of `cid` after the pending updates are flushed: the quantity the
final `bulk_update` leaves in the table for that id. -/
def finalRows (cid : Nat) (st : SyncSt) : List JiraStatus :=
  rowsFor cid (bulkUpdate st.db st.upd)

/-- Queued updates never point at absent rows: the loop only queues an
update after `get_or_create` found the row. -/
def UpdHaveRows (st : SyncSt) : Prop :=
  ∀ cid, lastVal st.upd cid ≠ none → rowsFor cid st.db ≠ []

/-! ### Concrete instances used by the witness theorems -/

/-- An oracle that answers every query with status `Open` for each requested
key. -/
def wFetchOpen : List String → Except PyErr (List RawIssue) :=
  fun ks => .ok (ks.map (fun k => ⟨some k, some ⟨some ⟨some "Open"⟩, none, none⟩⟩))

/-- An oracle that never returns any issue. -/
def wFetchEmpty : List String → Except PyErr (List RawIssue) :=
  fun _ => .ok []

/-- The `i`-th concrete ticket key. -/
def wKey (i : Nat) : String := "K-" ++ toString i

/-- 120 tracked records with distinct ids and distinct non-empty keys, all in
run 3. -/
def wCur120 : List CurrentSwState :=
  (List.range 120).map (fun i => ⟨i, 3, some (wKey i)⟩)

/-- An oracle that fails with HTTP 500 on the batch containing `K-50` (the
second of the three batches of `wCur120`) and otherwise answers `Open`. -/
def wFetchFail : List String → Except PyErr (List RawIssue) :=
  fun ks =>
    if ks.contains (wKey 50) then .error (.transport 500)
    else .ok (ks.map (fun k => ⟨some k, some ⟨some ⟨some "Open"⟩, none, none⟩⟩))

/-- The three batches of `wCur120`'s keys. -/
def wBatch1 : List String := (List.range 50).map wKey

/-- Keys 50–99. -/
def wBatch2 : List String := ((List.range 50).map (fun i => wKey (50 + i)))

/-- Keys 100–119. -/
def wBatch3 : List String := ((List.range 20).map (fun i => wKey (100 + i)))

/-- The status map `_fetch_status_for` produces for `wBatch1` under
`wFetchFail`. -/
def wSm1 : List (String × String) := (List.range 50).map (fun i => (wKey i, "Open"))

/-- The loop state after batch 1 of the `wFetchFail` scenario: 50 rows
created and saved, nothing queued for update. -/
def wSt1 : SyncSt :=
  ⟨(List.range 50).map (fun i => ⟨i, "Open"⟩), [],
   (List.range 50).map (fun i => ⟨i, "Open"⟩)⟩

/-- A single tracked record in run 5. -/
def wCur1 : List CurrentSwState := [⟨1, 5, some "K-1"⟩]

/-- A single tracked record in run 9 whose ticket is a lone blank. -/
def wCurWs : List CurrentSwState := [⟨1, 9, some " "⟩]

/-! ### Lemmas about `_chunks` -/

theorem chunksF_congr {α : Type} :
    ∀ (f₁ : Nat) (f₂ : Nat) (l : List α) (n : Nat),
      l.length ≤ f₁ → l.length ≤ f₂ → chunksF f₁ l n = chunksF f₂ l n := by
  intro f₁
  induction f₁ with
  | zero =>
    intro f₂ l n h₁ _
    have hl : l = [] := List.eq_nil_of_length_eq_zero (Nat.le_zero.mp h₁)
    subst hl
    cases f₂ with
    | zero => rfl
    | succ f₂ => simp [chunksF]
  | succ f₁ ih =>
    intro f₂ l n h₁ h₂
    cases f₂ with
    | zero =>
      have hl : l = [] := List.eq_nil_of_length_eq_zero (Nat.le_zero.mp h₂)
      subst hl
      simp [chunksF]
    | succ f₂ =>
      simp only [chunksF]
      by_cases hstop : n = 0 ∨ l.isEmpty
      · rw [if_pos hstop, if_pos hstop]
      · simp only [if_neg hstop]
        push_neg at hstop
        have hn : n ≠ 0 := hstop.1
        have hlen : l.length - n ≤ f₁ := by
          have : 1 ≤ n := Nat.one_le_iff_ne_zero.mpr hn
          omega
        have hlen₂ : l.length - n ≤ f₂ := by
          have : 1 ≤ n := Nat.one_le_iff_ne_zero.mpr hn
          omega
        rw [ih f₂ (l.drop n) n (by simpa using hlen) (by simpa using hlen₂)]

theorem chunks_nil {α : Type} (n : Nat) : chunks ([] : List α) n = [] := rfl

/-- One-step unfolding of `chunks` on a non-empty list with positive size. -/
theorem chunks_unfold {α : Type} {l : List α} {n : Nat} (hn : 0 < n)
    (hl : l ≠ []) : chunks l n = l.take n :: chunks (l.drop n) n := by
  unfold chunks
  obtain ⟨m, hm⟩ : ∃ m, l.length = m + 1 := by
    have : 0 < l.length := List.length_pos.mpr hl
    exact ⟨l.length - 1, by omega⟩
  rw [hm]
  simp only [chunksF]
  have hne : ¬ (n = 0 ∨ l.isEmpty) := by
    push_neg
    constructor
    · omega
    · simpa [List.isEmpty_iff] using hl
  rw [if_neg hne]
  congr 1
  apply chunksF_congr
  · simp only [List.length_drop]
    omega
  · exact le_refl _

/-- Concatenating the chunks gives back the input. -/
theorem chunks_flatten {α : Type} (l : List α) (n : Nat) (hn : 0 < n) :
    (chunks l n).flatten = l := by
  by_cases hl : l = []
  · subst hl; simp [chunks_nil]
  · rw [chunks_unfold hn hl]
    rw [List.flatten_cons]
    rw [chunks_flatten (l.drop n) n hn]
    exact List.take_append_drop n l
termination_by l.length
decreasing_by
  simp only [List.length_drop]
  have : 0 < l.length := List.length_pos.mpr hl
  omega

/-- Every chunk is non-empty and no chunk exceeds the batch size. -/
theorem mem_chunks {α : Type} (l : List α) (n : Nat) (hn : 0 < n)
    (c : List α) (hc : c ∈ chunks l n) : c ≠ [] ∧ c.length ≤ n := by
  by_cases hl : l = []
  · subst hl; rw [chunks_nil] at hc; exact absurd hc (List.not_mem_nil c)
  · rw [chunks_unfold hn hl] at hc
    rcases List.mem_cons.mp hc with h | h
    · subst h
      constructor
      · intro htake
        have : min n l.length = 0 := by
          have := congrArg List.length htake
          simpa [List.length_take] using this
        have hlpos : 0 < l.length := List.length_pos.mpr hl
        omega
      · simp [List.length_take]
    · exact mem_chunks (l.drop n) n hn c h
termination_by l.length
decreasing_by
  simp only [List.length_drop]
  have : 0 < l.length := List.length_pos.mpr hl
  omega

/-- C1: for every sequence of ticket keys, batching with `_chunks` at the
fixed batch size 50 yields batches whose concatenation is exactly the input
(order preserved, no key omitted or duplicated), every batch is non-empty
with at most 50 keys, and the empty input yields zero batches. -/
theorem c1_chunks_partition (l : List String) :
    (chunks l BATCH_SIZE).flatten = l
    ∧ (∀ c ∈ chunks l BATCH_SIZE, c ≠ [] ∧ c.length ≤ BATCH_SIZE)
    ∧ (l = [] → chunks l BATCH_SIZE = []) := by
  refine ⟨chunks_flatten l BATCH_SIZE (by decide), ?_, ?_⟩
  · intro c hc
    exact mem_chunks l BATCH_SIZE (by decide) c hc
  · intro hl
    subst hl
    exact chunks_nil BATCH_SIZE

/-- Witness for C1 at a concrete three-key input. -/
theorem c1_chunks_partition_witness :
    (chunks ["a", "b", "c"] BATCH_SIZE).flatten = ["a", "b", "c"]
    ∧ (["a", "b", "c"] ≠ [] ∧ (["a", "b", "c"] : List String).length ≤ BATCH_SIZE)
    ∧ chunks ([] : List String) BATCH_SIZE = [] := by
  refine ⟨(c1_chunks_partition ["a", "b", "c"]).1, ?_, ?_⟩
  · exact (c1_chunks_partition ["a", "b", "c"]).2.1 ["a", "b", "c"] (by decide)
  · exact (c1_chunks_partition []).2.2 rfl

/-! ### Lemmas about dict insertion and lookup -/

theorem dictGet_nil_eq {α β : Type} [DecidableEq α] (k : α) :
    dictGet? ([] : List (α × β)) k = none := rfl

theorem dictGet_cons_eq {α β : Type} [DecidableEq α] (p : α × β) (rest : List (α × β)) (k : α) :
    dictGet? (p :: rest) k = if p.1 = k then some p.2 else dictGet? rest k := rfl

theorem dictGet_overwrite {α β : Type} [DecidableEq α] (d : List (α × β)) (k : α) (v : β) :
    dictGet? (d.map (fun p => if p.1 = k then (k, v) else p)) k
      = if d.any (fun p => p.1 = k) then some v else none := by
  induction d with
  | nil => simp [dictGet_nil_eq]
  | cons p rest ih =>
    by_cases h : p.1 = k
    · simp [dictGet_cons_eq, h]
    · rw [List.map_cons, if_neg h, dictGet_cons_eq, if_neg h, ih,
        List.any_cons, decide_eq_false h, Bool.false_or]

theorem dictGet_append_single {α β : Type} [DecidableEq α] (d : List (α × β)) (k : α) (v : β)
    (h : d.any (fun p => p.1 = k) = false) :
    dictGet? (d ++ [(k, v)]) k = some v := by
  induction d with
  | nil => simp [dictGet_cons_eq, dictGet_nil_eq]
  | cons p rest ih =>
    simp only [List.any_cons, Bool.or_eq_false_iff] at h
    have hp : ¬ p.1 = k := by
      intro he
      simp [he] at h
    simp [dictGet_cons_eq, hp, ih h.2]

theorem dictGet_insert_self {α β : Type} [DecidableEq α] (d : List (α × β)) (k : α) (v : β) :
    dictGet? (dictInsert d k v) k = some v := by
  unfold dictInsert
  cases hany : d.any (fun p => p.1 = k) with
  | true => simp [hany, dictGet_overwrite]
  | false => simp [hany, dictGet_append_single d k v hany]

theorem dictGet_map_ne {α β : Type} [DecidableEq α] (d : List (α × β)) (k k' : α) (v : β)
    (h : k' ≠ k) :
    dictGet? (d.map (fun p => if p.1 = k then (k, v) else p)) k' = dictGet? d k' := by
  induction d with
  | nil => simp
  | cons p rest ih =>
    by_cases hp : p.1 = k
    · have hkk : ¬ (k = k') := fun he => h he.symm
      have hpk : ¬ (p.1 = k') := by rw [hp]; exact hkk
      simp [dictGet_cons_eq, hp, hkk, hpk, ih]
    · by_cases hk : p.1 = k'
      · simp [dictGet_cons_eq, hp, hk, h]
      · simp [dictGet_cons_eq, hp, hk, ih]

theorem dictGet_append_ne {α β : Type} [DecidableEq α] (d : List (α × β)) (k k' : α) (v : β)
    (h : k' ≠ k) :
    dictGet? (d ++ [(k, v)]) k' = dictGet? d k' := by
  induction d with
  | nil =>
    have hkk : ¬ (k = k') := fun he => h he.symm
    simp [dictGet_cons_eq, dictGet_nil_eq, hkk]
  | cons p rest ih =>
    by_cases hk : p.1 = k'
    · simp [dictGet_cons_eq, hk]
    · simp [dictGet_cons_eq, hk, ih]

theorem dictGet_insert_ne {α β : Type} [DecidableEq α] (d : List (α × β)) (k k' : α) (v : β)
    (h : k' ≠ k) :
    dictGet? (dictInsert d k v) k' = dictGet? d k' := by
  unfold dictInsert
  cases hany : d.any (fun p => p.1 = k) with
  | true => simp [hany, dictGet_map_ne d k k' v h]
  | false => simp [hany, dictGet_append_ne d k k' v h]

/-! ### Lemmas about `str.strip` -/

theorem pyStrip_all_ws (w : String) (h : ∀ c ∈ w.data, isPyWs c) : pyStrip w = "" := by
  unfold pyStrip
  have h1 : w.data.dropWhile isPyWs = [] := by
    rw [List.dropWhile_eq_nil_iff]
    intro c hc
    exact h c hc
  rw [h1]
  rfl

/-! ### The status-map comprehension of `_fetch_status_for` -/

theorem statusMapGo_spec :
    ∀ (issues : List RawIssue) (acc : List (String × String)),
      (∀ i ∈ issues, (statusOf i).isSome →
        i.key.isSome ∧ ∃ st, statusOf i = some st ∧ st.name.isSome) →
      (issues.filterMap RawIssue.key).Nodup →
      ∃ m, statusMapGo acc issues = .ok m
        ∧ (∀ k : String, (∀ i ∈ issues, i.key ≠ some k) → dictGet? m k = dictGet? acc k)
        ∧ (∀ i ∈ issues, ∀ k st nm, i.key = some k → statusOf i = some st →
            st.name = some nm → dictGet? m k = some nm)
        ∧ (∀ i ∈ issues, ∀ k, i.key = some k → statusOf i = none →
            dictGet? m k = dictGet? acc k) := by
  intro issues
  induction issues with
  | nil =>
    intro acc _ _
    exact ⟨acc, rfl, fun k _ => rfl, by simp, by simp⟩
  | cons i rest ih =>
    intro acc hwf hnd
    have hwfr : ∀ i' ∈ rest, (statusOf i').isSome →
        i'.key.isSome ∧ ∃ st, statusOf i' = some st ∧ st.name.isSome :=
      fun i' hi' => hwf i' (List.mem_cons_of_mem i hi')
    cases hso : statusOf i with
    | none =>
      have hndr : (rest.filterMap RawIssue.key).Nodup := by
        cases hkey : i.key with
        | none => simpa [List.filterMap_cons, hkey] using hnd
        | some k₀ =>
          rw [List.filterMap_cons, hkey] at hnd
          exact hnd.of_cons
      obtain ⟨m, hm, hunt, hmap, hnone⟩ := ih acc hwfr hndr
      have hstep : statusMapGo acc (i :: rest) = statusMapGo acc rest := by
        simp [statusMapGo, hso]
      refine ⟨m, hstep ▸ hm, ?_, ?_, ?_⟩
      · intro k hk
        exact hunt k (fun i' hi' => hk i' (List.mem_cons_of_mem i hi'))
      · intro i' hi' k st nm hk hs hn
        rcases List.mem_cons.mp hi' with he | hi'
        · subst he; rw [hso] at hs; cases hs
        · exact hmap i' hi' k st nm hk hs hn
      · intro i' hi' k hk hs
        rcases List.mem_cons.mp hi' with he | hi'
        · subst he
          have hnotin : ∀ i'' ∈ rest, i''.key ≠ some k := by
            intro i'' hi'' hk''
            rw [List.filterMap_cons, hk] at hnd
            exact (List.nodup_cons.mp hnd).1
              (List.mem_filterMap.mpr ⟨i'', hi'', hk''⟩)
          exact hunt k hnotin
        · exact hnone i' hi' k hk hs
    | some st =>
      obtain ⟨hkeyS, st', hst', hnmS⟩ := hwf i (List.mem_cons_self i rest) (by rw [hso]; rfl)
      rw [hso] at hst'
      cases hst'
      obtain ⟨k₀, hk₀⟩ := Option.isSome_iff_exists.mp hkeyS
      obtain ⟨nm, hnm⟩ := Option.isSome_iff_exists.mp hnmS
      have hndr : (rest.filterMap RawIssue.key).Nodup := by
        rw [List.filterMap_cons, hk₀] at hnd
        exact hnd.of_cons
      have hk₀notin : ∀ i'' ∈ rest, i''.key ≠ some k₀ := by
        intro i'' hi'' hk''
        rw [List.filterMap_cons, hk₀] at hnd
        exact (List.nodup_cons.mp hnd).1 (List.mem_filterMap.mpr ⟨i'', hi'', hk''⟩)
      obtain ⟨m, hm, hunt, hmap, hnone⟩ := ih (dictInsert acc k₀ nm) hwfr hndr
      have hstep : statusMapGo acc (i :: rest) = statusMapGo (dictInsert acc k₀ nm) rest := by
        simp [statusMapGo, hso, hk₀, hnm]
      refine ⟨m, hstep ▸ hm, ?_, ?_, ?_⟩
      · intro k hk
        have hkk₀ : k ≠ k₀ := by
          intro he
          exact hk i (List.mem_cons_self i rest) (he ▸ hk₀)
        rw [hunt k (fun i' hi' => hk i' (List.mem_cons_of_mem i hi'))]
        exact dictGet_insert_ne acc k₀ k nm hkk₀
      · intro i' hi' k st'' nm'' hk hs hn
        rcases List.mem_cons.mp hi' with he | hi'
        · subst he
          rw [hk₀] at hk
          cases hk
          rw [hso] at hs
          cases hs
          rw [hnm] at hn
          cases hn
          rw [hunt k₀ hk₀notin]
          exact dictGet_insert_self acc k₀ nm
        · exact hmap i' hi' k st'' nm'' hk hs hn
      · intro i' hi' k hk hs
        rcases List.mem_cons.mp hi' with he | hi'
        · subst he; rw [hso] at hs; cases hs
        · have hkk₀ : k ≠ k₀ := by
            intro he
            exact hk₀notin i' hi' (he ▸ hk)
          rw [hnone i' hi' k hk hs]
          exact dictGet_insert_ne acc k₀ k nm hkk₀

/-- C6: for every batch of keys and every remote response, `_fetch_status_for`
returns a mapping sending each response issue that possesses a status field
(with its name, per the response shape of the API) to that status name, and
omitting every issue lacking a status field; hence a requested key whose
response item has no status produces no entry while the others do.  The
response is assumed well-shaped (issues carry keys, present statuses carry
names, keys distinct), as the API contract guarantees. -/
theorem c6_fetch_status_map (fetch : List String → Except PyErr (List RawIssue))
    (keys : List String) (issues : List RawIssue)
    (hresp : fetch keys = .ok issues)
    (hwf : ∀ i ∈ issues, (statusOf i).isSome →
      i.key.isSome ∧ ∃ st, statusOf i = some st ∧ st.name.isSome)
    (hnd : (issues.filterMap RawIssue.key).Nodup) :
    ∃ m, fetchStatusFor fetch keys = .ok m
      ∧ (∀ i ∈ issues, ∀ k st nm, i.key = some k → statusOf i = some st →
          st.name = some nm → dictGet? m k = some nm)
      ∧ (∀ i ∈ issues, ∀ k, i.key = some k → statusOf i = none →
          dictGet? m k = none) := by
  obtain ⟨m, hm, hunt, hmap, hnone⟩ := statusMapGo_spec issues [] hwf hnd
  refine ⟨m, ?_, hmap, fun i hi k hk hs => (hnone i hi k hk hs).trans rfl⟩
  rw [fetchStatusFor, hresp]
  exact hm

/-- Witness for C6: a two-issue response, one key with a status and one key
whose item lacks the status field. -/
theorem c6_fetch_status_map_witness :
    ∃ m, fetchStatusFor
        (fun _ => .ok [⟨some "A", some ⟨some ⟨some "Done"⟩, none, none⟩⟩,
                       ⟨some "B", some ⟨none, none, none⟩⟩])
        ["A", "B"] = .ok m
      ∧ (∀ i ∈ [(⟨some "A", some ⟨some ⟨some "Done"⟩, none, none⟩⟩ : RawIssue),
                ⟨some "B", some ⟨none, none, none⟩⟩],
          ∀ k st nm, i.key = some k → statusOf i = some st →
            st.name = some nm → dictGet? m k = some nm)
      ∧ (∀ i ∈ [(⟨some "A", some ⟨some ⟨some "Done"⟩, none, none⟩⟩ : RawIssue),
                ⟨some "B", some ⟨none, none, none⟩⟩],
          ∀ k, i.key = some k → statusOf i = none → dictGet? m k = none) :=
  c6_fetch_status_map
    (fun _ => .ok [⟨some "A", some ⟨some ⟨some "Done"⟩, none, none⟩⟩,
                   ⟨some "B", some ⟨none, none, none⟩⟩])
    ["A", "B"] _ rfl (by decide) (by decide)

/-! ### The reporter -/

theorem report_cons_ok (i : RawIssue) (rest : List RawIssue) (line : String)
    (h : reportLine i = .ok line) :
    report (i :: rest) = (line :: (report rest).1, (report rest).2) := by
  rcases hr : report rest with ⟨ls, e⟩
  simp [report, h, hr]

theorem reportLine_wf (k p st sm : String) :
    reportLine ⟨some k, some ⟨some ⟨some st⟩, some ⟨some p⟩, some sm⟩⟩
      = .ok ("[" ++ p ++ "] " ++ padTo 12 k ++ "  " ++ padTo 15 st ++ "  " ++ sm) := rfl

theorem report_map_wf (rows : List (String × String × String × String)) :
    report (rows.map (fun r =>
        ⟨some r.1, some ⟨some ⟨some r.2.2.1⟩, some ⟨some r.2.1⟩, some r.2.2.2⟩⟩))
      = (rows.map (fun r =>
          "[" ++ r.2.1 ++ "] " ++ padTo 12 r.1 ++ "  " ++ padTo 15 r.2.2.1 ++ "  " ++ r.2.2.2),
         none) := by
  induction rows with
  | nil => rfl
  | cons r rest ih =>
    rw [List.map_cons, List.map_cons]
    rw [report_cons_ok _ _ _ (reportLine_wf r.1 r.2.1 r.2.2.1 r.2.2.2)]
    rw [ih]

/-- C8: the reporter prints one line per response item, in response order, in
the fixed-width format `[project] key status summary` with the key padded to
12 characters and the status padded to 15 (both left-justified, as the
claim's own example shows); in particular the example item produces exactly
`[OPS] OPS-7         In Progress      Patch CVE`. -/
theorem c8_reporter_format (rows : List (String × String × String × String)) :
    report (rows.map (fun r =>
        ⟨some r.1, some ⟨some ⟨some r.2.2.1⟩, some ⟨some r.2.1⟩, some r.2.2.2⟩⟩))
      = (rows.map (fun r =>
          "[" ++ r.2.1 ++ "] " ++ padTo 12 r.1 ++ "  " ++ padTo 15 r.2.2.1 ++ "  " ++ r.2.2.2),
         none)
    ∧ report [⟨some "OPS-7", some ⟨some ⟨some "In Progress"⟩, some ⟨some "OPS"⟩, some "Patch CVE"⟩⟩]
      = (["[OPS] OPS-7         In Progress      Patch CVE"], none) :=
  ⟨report_map_wf rows, by decide⟩

/-- C4 counterexample: a reporter item missing its `summary` field raises
`KeyError` (the loop aborts; nothing is skipped), and a fetcher item whose
status object lacks `name` raises `KeyError` — the claim's "silently skipped,
never raised" is false on the code. -/
theorem c4_counterexample :
    report [⟨some "OPS-7", some ⟨some ⟨some "In Progress"⟩, some ⟨some "OPS"⟩, none⟩⟩]
        = ([], some PyErr.keyError)
      ∧ statusMapOf [⟨some "K-1", some ⟨some ⟨none⟩, none, none⟩⟩]
        = .error PyErr.keyError := by
  exact ⟨by decide, by decide⟩

/-- C4 amended: only the synchronizer's fetcher skips an item, and only when
the item's `fields`/`status` entry itself is missing (its result equals the
result on the filtered item list); an item that has a status but lacks `key`
raises `KeyError`, and a reporter item for which any field access fails makes
the print loop raise instead of skipping. -/
theorem c4_missing_field_behaviour :
    (∀ issues : List RawIssue,
        statusMapOf issues = statusMapOf (issues.filter (fun i => (statusOf i).isSome)))
    ∧ (∀ (i : RawIssue) (rest : List RawIssue),
        (statusOf i).isSome → i.key = none →
        statusMapOf (i :: rest) = .error PyErr.keyError)
    ∧ (∀ (i : RawIssue) (rest : List RawIssue),
        reportLine i = .error PyErr.keyError →
        report (i :: rest) = ([], some PyErr.keyError)) := by
  refine ⟨?_, ?_, ?_⟩
  · have go : ∀ (issues : List RawIssue) (acc : List (String × String)),
        statusMapGo acc issues
          = statusMapGo acc (issues.filter (fun i => (statusOf i).isSome)) := by
      intro issues
      induction issues with
      | nil => intro acc; rfl
      | cons i rest ih =>
        intro acc
        cases hso : statusOf i with
        | none => simp [statusMapGo, hso, List.filter_cons, ih]
        | some st =>
          cases hk : i.key with
          | none => simp [statusMapGo, hso, hk, List.filter_cons]
          | some k₀ =>
            cases hnm : st.name with
            | none => simp [statusMapGo, hso, hk, hnm, List.filter_cons]
            | some nm => simp [statusMapGo, hso, hk, hnm, List.filter_cons, ih]
    intro issues
    exact go issues []
  · intro i rest hso hk
    obtain ⟨st, hst⟩ := Option.isSome_iff_exists.mp hso
    simp [statusMapOf, statusMapGo, hst, hk]
  · intro i rest h
    simp [report, h]

/-- Witness for the amended C4 at concrete malformed items. -/
theorem c4_missing_field_behaviour_witness :
    statusMapOf [⟨some "B", some ⟨none, none, none⟩⟩]
        = statusMapOf ([(⟨some "B", some ⟨none, none, none⟩⟩ : RawIssue)].filter
            (fun i => (statusOf i).isSome))
      ∧ statusMapOf [⟨none, some ⟨some ⟨some "X"⟩, none, none⟩⟩] = .error PyErr.keyError
      ∧ report [⟨some "K", none⟩] = ([], some PyErr.keyError) :=
  ⟨c4_missing_field_behaviour.1 [⟨some "B", some ⟨none, none, none⟩⟩],
   c4_missing_field_behaviour.2.1 ⟨none, some ⟨some ⟨some "X"⟩, none, none⟩⟩ [] (by decide) (by decide),
   c4_missing_field_behaviour.2.2 ⟨some "K", none⟩ [] (by decide)⟩

/-! ### Lemmas about the `JiraStatus` table, `bulk_update` and the queues -/

theorem rowsFor_nil (cid : Nat) : rowsFor cid [] = [] := rfl

theorem rowsFor_cons (cid : Nat) (j : JiraStatus) (db : List JiraStatus) :
    rowsFor cid (j :: db)
      = if j.cve_id == cid then j :: rowsFor cid db else rowsFor cid db := by
  simp only [rowsFor, List.filter_cons]

theorem mem_rowsFor {j : JiraStatus} {cid : Nat} {db : List JiraStatus}
    (h : j ∈ rowsFor cid db) : j ∈ db ∧ j.cve_id = cid := by
  have hm := List.mem_filter.mp h
  exact ⟨hm.1, by simpa using hm.2⟩

theorem self_mem_rowsFor (j : JiraStatus) (db : List JiraStatus) (h : j ∈ db) :
    j ∈ rowsFor j.cve_id db :=
  List.mem_filter.mpr ⟨h, by simp⟩

theorem rowsFor_append_other (cid : Nat) (db : List JiraStatus) (j : JiraStatus)
    (h : j.cve_id ≠ cid) : rowsFor cid (db ++ [j]) = rowsFor cid db := by
  simp [rowsFor, List.filter_append, h]

theorem rowsFor_append_self (cid : Nat) (db : List JiraStatus) (v : String) :
    rowsFor cid (db ++ [⟨cid, v⟩]) = rowsFor cid db ++ [⟨cid, v⟩] := by
  simp [rowsFor, List.filter_append]

theorem rowsFor_eq_nil_of_not_mem (cid : Nat) (db : List JiraStatus)
    (h : cid ∉ db.map JiraStatus.cve_id) : rowsFor cid db = [] := by
  induction db with
  | nil => rfl
  | cons j rest ih =>
    rw [List.map_cons, List.mem_cons] at h
    push_neg at h
    rw [rowsFor_cons]
    have hj : ¬ (j.cve_id == cid) := by
      simp only [beq_iff_eq]
      exact fun he => h.1 he.symm
    simp only [hj, if_false, Bool.false_eq_true]
    exact ih h.2

theorem uniqueRows_of_nodup (db : List JiraStatus)
    (h : (db.map JiraStatus.cve_id).Nodup) : UniqueRows db := by
  induction db with
  | nil => intro cid; simp [rowsFor_nil]
  | cons j rest ih =>
    rw [List.map_cons, List.nodup_cons] at h
    intro cid
    rw [rowsFor_cons]
    cases hj : (j.cve_id == cid) with
    | false => simpa using ih h.2 cid
    | true =>
      have hcid : j.cve_id = cid := by simpa using hj
      have : rowsFor cid rest = [] :=
        rowsFor_eq_nil_of_not_mem cid rest (hcid ▸ h.1)
      simp [this]

theorem lastVal_nil (cid : Nat) : lastVal [] cid = none := rfl

theorem lastVal_append (ups : List JiraStatus) (u : JiraStatus) (cid : Nat) :
    lastVal (ups ++ [u]) cid
      = if u.cve_id == cid then some u.jira_status else lastVal ups cid := by
  induction ups with
  | nil => rfl
  | cons w ups ih =>
    simp only [List.cons_append, lastVal, List.append_eq]
    rw [ih]
    cases hu : (u.cve_id == cid) with
    | true => simp
    | false => simp

theorem bulkUpdate_nil (db : List JiraStatus) : bulkUpdate db [] = db := rfl

theorem bulkUpdate_cons (db : List JiraStatus) (u : JiraStatus) (ups : List JiraStatus) :
    bulkUpdate db (u :: ups)
      = bulkUpdate
          (db.map (fun j => if j.cve_id == u.cve_id then ⟨j.cve_id, u.jira_status⟩ else j))
          ups := rfl

theorem rowsFor_map_preserve (cid : Nat) (db : List JiraStatus)
    (f : JiraStatus → JiraStatus) (hf : ∀ j, (f j).cve_id = j.cve_id) :
    rowsFor cid (db.map f) = (rowsFor cid db).map f := by
  induction db with
  | nil => rfl
  | cons j rest ih =>
    rw [List.map_cons, rowsFor_cons, rowsFor_cons, hf j]
    cases h : (j.cve_id == cid) with
    | true => simp [ih]
    | false => simp [ih]

theorem rowsFor_bulkUpdate (ups : List JiraStatus) :
    ∀ (db : List JiraStatus) (cid : Nat),
      rowsFor cid (bulkUpdate db ups)
        = match lastVal ups cid with
          | some v => (rowsFor cid db).map (fun _ => ⟨cid, v⟩)
          | none => rowsFor cid db := by
  induction ups with
  | nil =>
    intro db cid
    simp [bulkUpdate_nil, lastVal_nil]
  | cons u ups ih =>
    intro db cid
    rw [bulkUpdate_cons, ih]
    have hpres : ∀ j : JiraStatus,
        ((fun j => if j.cve_id == u.cve_id then (⟨j.cve_id, u.jira_status⟩ : JiraStatus) else j) j).cve_id
          = j.cve_id := by
      intro j
      by_cases h : (j.cve_id == u.cve_id) <;> simp [h]
    rw [rowsFor_map_preserve cid db _ hpres]
    cases hl : lastVal ups cid with
    | some v =>
      simp only [lastVal, hl]
      rw [List.map_map]
      rfl
    | none =>
      simp only [lastVal, hl]
      cases hu : (u.cve_id == cid) with
      | true =>
        simp only [if_true]
        apply List.map_congr_left
        intro j hj
        have hcid : j.cve_id = cid := (mem_rowsFor hj).2
        have hueq : u.cve_id = cid := by simpa using hu
        have hbeq : (cid == u.cve_id) = true := by simp [hueq]
        simp [hcid, hbeq]
      | false =>
        simp only [Bool.false_eq_true, if_false]
        have : ∀ j ∈ rowsFor cid db,
            (if j.cve_id == u.cve_id then (⟨j.cve_id, u.jira_status⟩ : JiraStatus) else j) = j := by
          intro j hj
          have hcid : j.cve_id = cid := (mem_rowsFor hj).2
          have hne : (j.cve_id == u.cve_id) = false := by
            have hu' : ¬ u.cve_id = cid := by simpa using hu
            simp only [beq_eq_false_iff_ne, ne_eq]
            intro he
            exact hu' (he ▸ hcid)
          simp [hne]
        rw [List.map_congr_left this]
        simp

theorem uniqueRows_bulkUpdate (db : List JiraStatus) (ups : List JiraStatus)
    (h : UniqueRows db) : UniqueRows (bulkUpdate db ups) := by
  intro cid
  rw [rowsFor_bulkUpdate]
  cases lastVal ups cid with
  | some v => simpa using h cid
  | none => exact h cid

theorem finalRows_congr (cid : Nat) (st₁ st₂ : SyncSt)
    (h1 : rowsFor cid st₁.db = rowsFor cid st₂.db)
    (h2 : lastVal st₁.upd cid = lastVal st₂.upd cid) :
    finalRows cid st₁ = finalRows cid st₂ := by
  unfold finalRows
  rw [rowsFor_bulkUpdate, rowsFor_bulkUpdate, h1, h2]

/-! ### Lemmas about the inner upsert loop -/

theorem processEntry_cases (sm : List (String × String)) (st : SyncSt) (p : Nat × String) :
    (processEntry sm st p = (st, none))
    ∨ (∃ v, dictGet? sm p.2 = some v ∧ rowsFor p.1 st.db = []
        ∧ processEntry sm st p
          = (⟨st.db ++ [⟨p.1, v⟩], st.upd, st.crs ++ [⟨p.1, v⟩]⟩, none))
    ∨ (∃ v j, dictGet? sm p.2 = some v ∧ rowsFor p.1 st.db = [j]
        ∧ processEntry sm st p = (⟨st.db, st.upd ++ [⟨p.1, v⟩], st.crs⟩, none))
    ∨ (∃ v j₁ j₂ tl, dictGet? sm p.2 = some v ∧ rowsFor p.1 st.db = j₁ :: j₂ :: tl
        ∧ processEntry sm st p = (st, some .multipleObjects)) := by
  unfold processEntry
  cases hdg : dictGet? sm p.2 with
  | none => left; rfl
  | some v =>
    cases hrows : rowsFor p.1 st.db with
    | nil =>
      right; left
      exact ⟨v, rfl, rfl, rfl⟩
    | cons j tl =>
      cases tl with
      | nil =>
        right; right; left
        exact ⟨v, j, rfl, rfl, rfl⟩
      | cons j₂ tl₂ =>
        right; right; right
        exact ⟨v, j, j₂, tl₂, rfl, rfl, rfl⟩

theorem processEntry_other (sm : List (String × String)) (st : SyncSt) (p : Nat × String)
    (cid : Nat) (h : p.1 ≠ cid) :
    rowsFor cid (processEntry sm st p).1.db = rowsFor cid st.db
    ∧ lastVal (processEntry sm st p).1.upd cid = lastVal st.upd cid := by
  rcases processEntry_cases sm st p with h0 | ⟨v, _, _, heq⟩ | ⟨v, j, _, _, heq⟩
    | ⟨v, j₁, j₂, tl, _, _, heq⟩
  · rw [h0]; exact ⟨rfl, rfl⟩
  · rw [heq]
    exact ⟨rowsFor_append_other cid st.db ⟨p.1, v⟩ h, rfl⟩
  · rw [heq]
    refine ⟨rfl, ?_⟩
    show lastVal (st.upd ++ [⟨p.1, v⟩]) cid = lastVal st.upd cid
    rw [lastVal_append]
    have hb : ((⟨p.1, v⟩ : JiraStatus).cve_id == cid) = false := by simp [h]
    simp [hb]
  · rw [heq]; exact ⟨rfl, rfl⟩

theorem processBatch_cons_eq (sm : List (String × String)) (p : Nat × String)
    (rest : List (Nat × String)) (st : SyncSt) :
    processBatch sm (p :: rest) st
      = match processEntry sm st p with
        | (st', none) => processBatch sm rest st'
        | (st', some e) => (st', some e) := rfl

theorem processBatch_untouched (sm : List (String × String)) :
    ∀ (idt : List (Nat × String)) (st : SyncSt) (cid : Nat),
      cid ∉ idt.map Prod.fst →
      rowsFor cid (processBatch sm idt st).1.db = rowsFor cid st.db
      ∧ lastVal (processBatch sm idt st).1.upd cid = lastVal st.upd cid := by
  intro idt
  induction idt with
  | nil => intro st cid _; exact ⟨rfl, rfl⟩
  | cons p rest ih =>
    intro st cid h
    rw [List.map_cons, List.mem_cons] at h
    push_neg at h
    have hp : p.1 ≠ cid := fun he => h.1 he.symm
    have hpe := processEntry_other sm st p cid hp
    rcases hq : processEntry sm st p with ⟨st', r⟩
    rw [hq] at hpe
    rw [processBatch_cons_eq, hq]
    cases r with
    | none =>
      have hrest := ih st' cid h.2
      exact ⟨hrest.1.trans hpe.1, hrest.2.trans hpe.2⟩
    | some e => exact hpe

theorem processEntry_rows_preserve (sm : List (String × String)) (st : SyncSt)
    (p : Nat × String) (cid : Nat) (hne : rowsFor cid st.db ≠ []) :
    rowsFor cid (processEntry sm st p).1.db = rowsFor cid st.db := by
  rcases processEntry_cases sm st p with h0 | ⟨v, _, hrows, heq⟩ | ⟨v, j, _, _, heq⟩
    | ⟨v, j₁, j₂, tl, _, _, heq⟩
  · rw [h0]
  · rw [heq]
    by_cases hc : p.1 = cid
    · subst hc
      exact absurd hrows hne
    · exact rowsFor_append_other cid st.db ⟨p.1, v⟩ hc
  · rw [heq]
  · rw [heq]

theorem processBatch_rows_preserve (sm : List (String × String)) :
    ∀ (idt : List (Nat × String)) (st : SyncSt) (cid : Nat),
      rowsFor cid st.db ≠ [] →
      rowsFor cid (processBatch sm idt st).1.db = rowsFor cid st.db := by
  intro idt
  induction idt with
  | nil => intro st cid _; rfl
  | cons p rest ih =>
    intro st cid hne
    have hpe := processEntry_rows_preserve sm st p cid hne
    rcases hq : processEntry sm st p with ⟨st', r⟩
    rw [hq] at hpe
    rw [processBatch_cons_eq, hq]
    cases r with
    | none =>
      have hne' : rowsFor cid st'.db ≠ [] := by rw [hpe]; exact hne
      exact (ih st' cid hne').trans hpe
    | some e => exact hpe

theorem processEntry_unique (sm : List (String × String)) (st : SyncSt) (p : Nat × String)
    (h : UniqueRows st.db) :
    UniqueRows (processEntry sm st p).1.db ∧ (processEntry sm st p).2 = none := by
  rcases processEntry_cases sm st p with h0 | ⟨v, _, hrows, heq⟩ | ⟨v, j, _, _, heq⟩
    | ⟨v, j₁, j₂, tl, _, hrows, heq⟩
  · rw [h0]; exact ⟨h, rfl⟩
  · rw [heq]
    refine ⟨?_, rfl⟩
    intro cid
    by_cases hc : p.1 = cid
    · subst hc
      show (rowsFor p.1 (st.db ++ [⟨p.1, v⟩])).length ≤ 1
      rw [rowsFor_append_self, hrows]
      simp
    · show (rowsFor cid (st.db ++ [⟨p.1, v⟩])).length ≤ 1
      rw [rowsFor_append_other cid st.db ⟨p.1, v⟩ hc]
      exact h cid
  · rw [heq]; exact ⟨h, rfl⟩
  · have hlen := h p.1
    rw [hrows] at hlen
    simp at hlen

theorem processEntry_updrows (sm : List (String × String)) (st : SyncSt) (p : Nat × String)
    (h2 : UpdHaveRows st) : UpdHaveRows (processEntry sm st p).1 := by
  rcases processEntry_cases sm st p with h0 | ⟨v, _, hrows, heq⟩ | ⟨v, j, _, hrows, heq⟩
    | ⟨v, j₁, j₂, tl, _, _, heq⟩
  · rw [h0]; exact h2
  · rw [heq]
    intro cid hlv
    have hne := h2 cid hlv
    by_cases hc : p.1 = cid
    · subst hc
      show rowsFor p.1 (st.db ++ [⟨p.1, v⟩]) ≠ []
      rw [rowsFor_append_self]
      simp
    · show rowsFor cid (st.db ++ [⟨p.1, v⟩]) ≠ []
      rw [rowsFor_append_other cid st.db ⟨p.1, v⟩ hc]
      exact hne
  · rw [heq]
    intro cid hlv
    show rowsFor cid st.db ≠ []
    by_cases hc : p.1 = cid
    · subst hc
      rw [hrows]
      simp
    · apply h2 cid
      show lastVal st.upd cid ≠ none
      have hb : ((⟨p.1, v⟩ : JiraStatus).cve_id == cid) = false := by simp [hc]
      have : lastVal (st.upd ++ [⟨p.1, v⟩]) cid = lastVal st.upd cid := by
        rw [lastVal_append, hb]
        simp
      rw [← this]
      exact hlv
  · rw [heq]; exact h2

theorem processBatch_unique (sm : List (String × String)) :
    ∀ (idt : List (Nat × String)) (st : SyncSt),
      UniqueRows st.db → UpdHaveRows st →
      UniqueRows (processBatch sm idt st).1.db
      ∧ UpdHaveRows (processBatch sm idt st).1
      ∧ (processBatch sm idt st).2 = none := by
  intro idt
  induction idt with
  | nil => intro st h1 h2; exact ⟨h1, h2, rfl⟩
  | cons p rest ih =>
    intro st h1 h2
    have hu := processEntry_unique sm st p h1
    have hw := processEntry_updrows sm st p h2
    rcases hq : processEntry sm st p with ⟨st', r⟩
    rw [hq] at hu hw
    rw [processBatch_cons_eq, hq]
    cases r with
    | none => exact ih st' hu.1 hw
    | some e => exact absurd hu.2 (by simp)

theorem processBatch_final (sm : List (String × String)) :
    ∀ (idt : List (Nat × String)) (st : SyncSt) (cid : Nat) (t : String),
      (idt.map Prod.fst).Nodup → (cid, t) ∈ idt →
      UniqueRows st.db → UpdHaveRows st →
      finalRows cid (processBatch sm idt st).1
        = match dictGet? sm t with
          | some v => [⟨cid, v⟩]
          | none => finalRows cid st := by
  intro idt
  induction idt with
  | nil => intro st cid t _ hmem; exact absurd hmem (List.not_mem_nil _)
  | cons p rest ih =>
    intro st cid t hnd hmem h1 h2
    rw [List.map_cons, List.nodup_cons] at hnd
    rcases List.mem_cons.mp hmem with he | hmem'
    · -- the pair at the head of the mapping
      have hcid : p.1 = cid := by rw [← he]
      have ht : p.2 = t := by rw [← he]
      subst hcid
      subst ht
      have hnotin : p.1 ∉ rest.map Prod.fst := hnd.1
      cases hdg : dictGet? sm p.2 with
      | none =>
        have hskip : processEntry sm st p = (st, none) := by
          unfold processEntry
          rw [hdg]
        rw [processBatch_cons_eq, hskip]
        have hunt := processBatch_untouched sm rest st p.1 hnotin
        exact finalRows_congr p.1 _ st hunt.1 hunt.2
      | some v =>
        cases hrows : rowsFor p.1 st.db with
        | nil =>
          have hstep : processEntry sm st p
              = (⟨st.db ++ [⟨p.1, v⟩], st.upd, st.crs ++ [⟨p.1, v⟩]⟩, none) := by
            unfold processEntry
            rw [hdg, hrows]
          rw [processBatch_cons_eq, hstep]
          have hunt := processBatch_untouched sm rest
            ⟨st.db ++ [⟨p.1, v⟩], st.upd, st.crs ++ [⟨p.1, v⟩]⟩ p.1 hnotin
          have hlv : lastVal st.upd p.1 = none := by
            by_contra hne
            exact absurd hrows (h2 p.1 hne)
          unfold finalRows
          rw [rowsFor_bulkUpdate, hunt.2, hlv]
          rw [hunt.1]
          show rowsFor p.1 (st.db ++ [⟨p.1, v⟩]) = [⟨p.1, v⟩]
          rw [rowsFor_append_self, hrows]
          rfl
        | cons j tl =>
          cases tl with
          | nil =>
            have hstep : processEntry sm st p
                = (⟨st.db, st.upd ++ [⟨p.1, v⟩], st.crs⟩, none) := by
              unfold processEntry
              rw [hdg, hrows]
            rw [processBatch_cons_eq, hstep]
            have hunt := processBatch_untouched sm rest
              ⟨st.db, st.upd ++ [⟨p.1, v⟩], st.crs⟩ p.1 hnotin
            have hlv : lastVal (st.upd ++ [⟨p.1, v⟩]) p.1 = some v := by
              rw [lastVal_append]
              simp
            unfold finalRows
            rw [rowsFor_bulkUpdate, hunt.2, hlv, hunt.1]
            show (rowsFor p.1 st.db).map _ = _
            rw [hrows]
            have hj : j.cve_id = p.1 := by
              have : j ∈ rowsFor p.1 st.db := by rw [hrows]; exact List.mem_singleton.mpr rfl
              exact (mem_rowsFor this).2
            rfl
          | cons j₂ tl₂ =>
            have hlen := h1 p.1
            rw [hrows] at hlen
            simp at hlen
    · -- the pair lies further down the mapping
      have hp : p.1 ≠ cid := by
        intro he
        exact hnd.1 (he ▸ List.mem_map.mpr ⟨(cid, t), hmem', rfl⟩)
      have hu := processEntry_unique sm st p h1
      have hw := processEntry_updrows sm st p h2
      have hpe := processEntry_other sm st p cid hp
      rcases hq : processEntry sm st p with ⟨st', r⟩
      rw [hq] at hu hw hpe
      rw [processBatch_cons_eq, hq]
      cases r with
      | none =>
        rw [ih st' cid t hnd.2 hmem' hu.1 hw]
        cases hdg : dictGet? sm t with
        | none => exact finalRows_congr cid st' st hpe.1 hpe.2
        | some v => rfl
      | some e => exact absurd hu.2 (by simp)

theorem processBatch_nocreate (sm : List (String × String)) :
    ∀ (idt : List (Nat × String)) (st : SyncSt),
      (∀ p ∈ idt, dictGet? sm p.2 ≠ none → rowsFor p.1 st.db ≠ []) →
      (processBatch sm idt st).1.db = st.db
      ∧ (processBatch sm idt st).1.crs = st.crs := by
  intro idt
  induction idt with
  | nil => intro st _; exact ⟨rfl, rfl⟩
  | cons p rest ih =>
    intro st hcond
    rcases processEntry_cases sm st p with h0 | ⟨v, hdg, hrows, heq⟩ | ⟨v, j, hdg, hrows, heq⟩
      | ⟨v, j₁, j₂, tl, hdg, hrows, heq⟩
    · rw [processBatch_cons_eq, h0]
      exact ih st (fun q hq => hcond q (List.mem_cons_of_mem p hq))
    · exact absurd hrows
        (hcond p (List.mem_cons_self p rest) (by rw [hdg]; exact fun h => Option.noConfusion h))
    · rw [processBatch_cons_eq, heq]
      exact ih ⟨st.db, st.upd ++ [⟨p.1, v⟩], st.crs⟩
        (fun q hq => hcond q (List.mem_cons_of_mem p hq))
    · rw [processBatch_cons_eq, heq]
      exact ⟨rfl, rfl⟩

theorem processBatch_db_mem (sm : List (String × String)) :
    ∀ (idt : List (Nat × String)) (st : SyncSt) (j : JiraStatus),
      j ∈ st.db → j ∈ (processBatch sm idt st).1.db := by
  intro idt
  induction idt with
  | nil => intro st j hj; exact hj
  | cons p rest ih =>
    intro st j hj
    rcases processEntry_cases sm st p with h0 | ⟨v, _, _, heq⟩ | ⟨v, j', _, _, heq⟩
      | ⟨v, j₁, j₂, tl, _, _, heq⟩
    · rw [processBatch_cons_eq, h0]
      exact ih st j hj
    · rw [processBatch_cons_eq, heq]
      exact ih _ j (List.mem_append_left _ hj)
    · rw [processBatch_cons_eq, heq]
      exact ih _ j hj
    · rw [processBatch_cons_eq, heq]
      exact hj

theorem processBatch_crs_sub (sm : List (String × String)) :
    ∀ (idt : List (Nat × String)) (st : SyncSt),
      (∀ j ∈ st.crs, j ∈ st.db) →
      ∀ j ∈ (processBatch sm idt st).1.crs, j ∈ (processBatch sm idt st).1.db := by
  intro idt
  induction idt with
  | nil => intro st h j hj; exact h j hj
  | cons p rest ih =>
    intro st h
    rcases processEntry_cases sm st p with h0 | ⟨v, _, _, heq⟩ | ⟨v, j', _, _, heq⟩
      | ⟨v, j₁, j₂, tl, _, _, heq⟩
    · rw [processBatch_cons_eq, h0]
      exact ih st h
    · rw [processBatch_cons_eq, heq]
      apply ih
      intro j hj
      rcases List.mem_append.mp hj with hj | hj
      · exact List.mem_append_left _ (h j hj)
      · exact List.mem_append_right _ hj
    · rw [processBatch_cons_eq, heq]
      exact ih _ h
    · rw [processBatch_cons_eq, heq]
      exact h

/-! ### Lemmas about the batch loop -/

theorem runBatches_nil (fetch : List String → Except PyErr (List RawIssue))
    (idt : List (Nat × String)) (st : SyncSt) :
    runBatches fetch idt [] st = (st, [], none) := rfl

theorem runBatches_cons_eq (fetch : List String → Except PyErr (List RawIssue))
    (idt : List (Nat × String)) (b : List String) (rest : List (List String)) (st : SyncSt) :
    runBatches fetch idt (b :: rest) st
      = match fetchStatusFor fetch b with
        | .error e => (st, [b], some e)
        | .ok sm =>
          match processBatch sm idt st with
          | (st', none) =>
            match runBatches fetch idt rest st' with
            | (stf, qs, r) => (stf, b :: qs, r)
          | (st', some e) => (st', [b], some e) := rfl

theorem runBatches_cons_err (fetch : List String → Except PyErr (List RawIssue))
    (idt : List (Nat × String)) (b : List String) (rest : List (List String))
    (st : SyncSt) (e : PyErr) (hf : fetchStatusFor fetch b = .error e) :
    runBatches fetch idt (b :: rest) st = (st, [b], some e) := by
  rw [runBatches_cons_eq, hf]

theorem runBatches_cons_ok_err (fetch : List String → Except PyErr (List RawIssue))
    (idt : List (Nat × String)) (b : List String) (rest : List (List String))
    (st st' : SyncSt) (sm : List (String × String)) (e : PyErr)
    (hf : fetchStatusFor fetch b = .ok sm)
    (hp : processBatch sm idt st = (st', some e)) :
    runBatches fetch idt (b :: rest) st = (st', [b], some e) := by
  rw [runBatches_cons_eq, hf]
  simp only [hp]

theorem runBatches_cons_ok_none (fetch : List String → Except PyErr (List RawIssue))
    (idt : List (Nat × String)) (b : List String) (rest : List (List String))
    (st st' : SyncSt) (sm : List (String × String))
    (hf : fetchStatusFor fetch b = .ok sm)
    (hp : processBatch sm idt st = (st', none)) :
    runBatches fetch idt (b :: rest) st
      = ((runBatches fetch idt rest st').1,
         b :: (runBatches fetch idt rest st').2.1,
         (runBatches fetch idt rest st').2.2) := by
  rcases hr : runBatches fetch idt rest st' with ⟨stf, qs, r⟩
  rw [runBatches_cons_eq, hf]
  simp only [hp, hr]

theorem runBatches_queries_take (fetch : List String → Except PyErr (List RawIssue))
    (idt : List (Nat × String)) :
    ∀ (bs : List (List String)) (st : SyncSt),
      ∃ k, (runBatches fetch idt bs st).2.1 = bs.take k := by
  intro bs
  induction bs with
  | nil => intro st; exact ⟨0, rfl⟩
  | cons b rest ih =>
    intro st
    cases hf : fetchStatusFor fetch b with
    | error e =>
      rw [runBatches_cons_err fetch idt b rest st e hf]
      exact ⟨1, rfl⟩
    | ok sm =>
      rcases hp : processBatch sm idt st with ⟨st', r⟩
      cases r with
      | none =>
        rw [runBatches_cons_ok_none fetch idt b rest st st' sm hf hp]
        obtain ⟨k, hk⟩ := ih st'
        exact ⟨k + 1, by rw [List.take_succ_cons, ← hk]⟩
      | some e =>
        rw [runBatches_cons_ok_err fetch idt b rest st st' sm e hf hp]
        exact ⟨1, rfl⟩

theorem runBatches_untouched (fetch : List String → Except PyErr (List RawIssue))
    (idt : List (Nat × String)) :
    ∀ (bs : List (List String)) (st : SyncSt) (cid : Nat),
      cid ∉ idt.map Prod.fst →
      rowsFor cid (runBatches fetch idt bs st).1.db = rowsFor cid st.db
      ∧ lastVal (runBatches fetch idt bs st).1.upd cid = lastVal st.upd cid := by
  intro bs
  induction bs with
  | nil => intro st cid _; exact ⟨rfl, rfl⟩
  | cons b rest ih =>
    intro st cid h
    cases hf : fetchStatusFor fetch b with
    | error e =>
      rw [runBatches_cons_err fetch idt b rest st e hf]
      exact ⟨rfl, rfl⟩
    | ok sm =>
      have hpb := processBatch_untouched sm idt st cid h
      rcases hp : processBatch sm idt st with ⟨st', r⟩
      rw [hp] at hpb
      cases r with
      | none =>
        rw [runBatches_cons_ok_none fetch idt b rest st st' sm hf hp]
        have hrest := ih st' cid h
        exact ⟨hrest.1.trans hpb.1, hrest.2.trans hpb.2⟩
      | some e =>
        rw [runBatches_cons_ok_err fetch idt b rest st st' sm e hf hp]
        exact hpb

theorem batchMaps_nil (fetch : List String → Except PyErr (List RawIssue)) :
    batchMaps fetch [] = some [] := rfl

theorem batchMaps_cons (fetch : List String → Except PyErr (List RawIssue))
    (b : List String) (rest : List (List String)) :
    batchMaps fetch (b :: rest)
      = match fetchStatusFor fetch b with
        | .error _ => none
        | .ok sm => (batchMaps fetch rest).map (sm :: ·) := rfl

theorem batchMaps_cons_err (fetch : List String → Except PyErr (List RawIssue))
    (b : List String) (rest : List (List String)) (e : PyErr)
    (hf : fetchStatusFor fetch b = .error e) :
    batchMaps fetch (b :: rest) = none := by
  rw [batchMaps_cons, hf]

theorem batchMaps_cons_ok (fetch : List String → Except PyErr (List RawIssue))
    (b : List String) (rest : List (List String)) (sm : List (String × String))
    (hf : fetchStatusFor fetch b = .ok sm) :
    batchMaps fetch (b :: rest) = (batchMaps fetch rest).map (sm :: ·) := by
  rw [batchMaps_cons, hf]

theorem runBatches_maps_of_none (fetch : List String → Except PyErr (List RawIssue))
    (idt : List (Nat × String)) :
    ∀ (bs : List (List String)) (st : SyncSt),
      (runBatches fetch idt bs st).2.2 = none →
      ∃ sms, batchMaps fetch bs = some sms := by
  intro bs
  induction bs with
  | nil => intro st _; exact ⟨[], rfl⟩
  | cons b rest ih =>
    intro st h
    cases hf : fetchStatusFor fetch b with
    | error e =>
      rw [runBatches_cons_err fetch idt b rest st e hf] at h
      exact absurd h (by simp)
    | ok sm =>
      rcases hp : processBatch sm idt st with ⟨st', r⟩
      cases r with
      | none =>
        rw [runBatches_cons_ok_none fetch idt b rest st st' sm hf hp] at h
        obtain ⟨sms', hsms'⟩ := ih st' h
        rw [batchMaps_cons_ok fetch b rest sm hf, hsms']
        exact ⟨sm :: sms', rfl⟩
      | some e =>
        rw [runBatches_cons_ok_err fetch idt b rest st st' sm e hf hp] at h
        exact absurd h (by simp)

theorem runBatches_run (fetch : List String → Except PyErr (List RawIssue))
    (idt : List (Nat × String)) :
    ∀ (bs : List (List String)) (sms : List (List (String × String))) (st : SyncSt),
      batchMaps fetch bs = some sms →
      UniqueRows st.db → UpdHaveRows st →
      (runBatches fetch idt bs st).2.2 = none
      ∧ (runBatches fetch idt bs st).2.1 = bs
      ∧ UniqueRows (runBatches fetch idt bs st).1.db
      ∧ UpdHaveRows (runBatches fetch idt bs st).1
      ∧ (∀ cid t, (idt.map Prod.fst).Nodup → (cid, t) ∈ idt →
          finalRows cid (runBatches fetch idt bs st).1
            = match lastLook sms t with
              | some v => [⟨cid, v⟩]
              | none => finalRows cid st) := by
  intro bs
  induction bs with
  | nil =>
    intro sms st hbm h1 h2
    have hsms : sms = [] := by
      rw [batchMaps_nil] at hbm
      exact (Option.some_inj.mp hbm).symm
    subst hsms
    exact ⟨rfl, rfl, h1, h2, fun cid t _ _ => rfl⟩
  | cons b rest ih =>
    intro sms st hbm h1 h2
    cases hf : fetchStatusFor fetch b with
    | error e =>
      rw [batchMaps_cons_err fetch b rest e hf] at hbm
      exact absurd hbm (by simp)
    | ok sm =>
      rw [batchMaps_cons_ok fetch b rest sm hf] at hbm
      cases hbr : batchMaps fetch rest with
      | none => rw [hbr] at hbm; exact absurd hbm (by simp)
      | some sms' =>
        rw [hbr] at hbm
        have hsms : sms = sm :: sms' := by
          simp at hbm
          exact hbm.symm
        subst hsms
        have hpb := processBatch_unique sm idt st h1 h2
        rcases hp : processBatch sm idt st with ⟨st', r⟩
        rw [hp] at hpb
        cases r with
        | some e => exact absurd hpb.2.2 (by simp)
        | none =>
          have ihs := ih sms' st' hbr hpb.1 hpb.2.1
          rw [runBatches_cons_ok_none fetch idt b rest st st' sm hf hp]
          refine ⟨ihs.1, by rw [ihs.2.1], ihs.2.2.1, ihs.2.2.2.1, ?_⟩
          intro cid t hnd hmem
          show finalRows cid (runBatches fetch idt rest st').1 = _
          rw [ihs.2.2.2.2 cid t hnd hmem]
          have hpbf := processBatch_final sm idt st cid t hnd hmem h1 h2
          rw [hp] at hpbf
          cases hll : lastLook sms' t with
          | some v => simp [lastLook, hll]
          | none =>
            simp only [lastLook, hll]
            rw [hpbf]

theorem runBatches_nocreate (fetch : List String → Except PyErr (List RawIssue))
    (idt : List (Nat × String)) :
    ∀ (bs : List (List String)) (sms : List (List (String × String))) (st : SyncSt),
      batchMaps fetch bs = some sms →
      (∀ p ∈ idt, lastLook sms p.2 ≠ none → rowsFor p.1 st.db ≠ []) →
      (runBatches fetch idt bs st).1.db = st.db
      ∧ (runBatches fetch idt bs st).1.crs = st.crs := by
  intro bs
  induction bs with
  | nil => intro sms st _ _; exact ⟨rfl, rfl⟩
  | cons b rest ih =>
    intro sms st hbm hcond
    cases hf : fetchStatusFor fetch b with
    | error e =>
      rw [batchMaps_cons_err fetch b rest e hf] at hbm
      exact absurd hbm (by simp)
    | ok sm =>
      rw [batchMaps_cons_ok fetch b rest sm hf] at hbm
      cases hbr : batchMaps fetch rest with
      | none => rw [hbr] at hbm; exact absurd hbm (by simp)
      | some sms' =>
        rw [hbr] at hbm
        have hsms : sms = sm :: sms' := by
          simp at hbm
          exact hbm.symm
        subst hsms
        have hcondb : ∀ p ∈ idt, dictGet? sm p.2 ≠ none → rowsFor p.1 st.db ≠ [] := by
          intro p hp hdg
          apply hcond p hp
          show lastLook (sm :: sms') p.2 ≠ none
          simp only [lastLook]
          cases lastLook sms' p.2 with
          | some v => simp
          | none => simpa using hdg
        have hpc := processBatch_nocreate sm idt st hcondb
        rcases hp : processBatch sm idt st with ⟨st', r⟩
        rw [hp] at hpc
        cases r with
        | some e =>
          rw [runBatches_cons_ok_err fetch idt b rest st st' sm e hf hp]
          exact hpc
        | none =>
          rw [runBatches_cons_ok_none fetch idt b rest st st' sm hf hp]
          have hcondr : ∀ p ∈ idt, lastLook sms' p.2 ≠ none → rowsFor p.1 st'.db ≠ [] := by
            intro p hp hll
            rw [hpc.1]
            apply hcond p hp
            show lastLook (sm :: sms') p.2 ≠ none
            simp only [lastLook]
            cases hll₂ : lastLook sms' p.2 with
            | some v => simp
            | none => exact absurd hll₂ hll
          have hrest := ih sms' st' hbr hcondr
          exact ⟨hrest.1.trans hpc.1, hrest.2.trans hpc.2⟩

/-! ### Lemmas about the selection and the id-to-ticket dict -/

theorem any_key_eq_false_iff {α β : Type} [DecidableEq α] (d : List (α × β)) (k : α) :
    d.any (fun p => p.1 = k) = false ↔ k ∉ d.map Prod.fst := by
  constructor
  · intro h hk
    obtain ⟨p, hp, hpk⟩ := List.mem_map.mp hk
    have := List.any_eq_false.mp h p hp
    exact this (by simpa using hpk)
  · intro h
    apply List.any_eq_false.mpr
    intro p hp hdec
    exact h (List.mem_map.mpr ⟨p, hp, by simpa using hdec⟩)

theorem dictInsert_not_mem {α β : Type} [DecidableEq α] (d : List (α × β)) (k : α) (v : β)
    (h : k ∉ d.map Prod.fst) : dictInsert d k v = d ++ [(k, v)] := by
  have hany : d.any (fun p => p.1 = k) = false := (any_key_eq_false_iff d k).mpr h
  simp [dictInsert, hany]

theorem dictInsert_keys_mapped {α β : Type} [DecidableEq α] (d : List (α × β)) (k : α) (v : β) :
    (d.map (fun p => if p.1 = k then (k, v) else p)).map Prod.fst = d.map Prod.fst := by
  rw [List.map_map]
  apply List.map_congr_left
  intro p _
  by_cases h : p.1 = k
  · simp [h]
  · simp [h]

theorem dictInsert_keys_nodup {α β : Type} [DecidableEq α] (d : List (α × β)) (k : α) (v : β)
    (h : (d.map Prod.fst).Nodup) : ((dictInsert d k v).map Prod.fst).Nodup := by
  unfold dictInsert
  cases hany : d.any (fun p => p.1 = k) with
  | true =>
    simp only [hany, if_true]
    rw [dictInsert_keys_mapped]
    exact h
  | false =>
    simp only [hany, Bool.false_eq_true, if_false]
    rw [List.map_append]
    rw [List.nodup_append]
    refine ⟨h, List.nodup_singleton k, ?_⟩
    intro x hx hk
    have hxk : x = k := by simpa using hk
    subst hxk
    exact (any_key_eq_false_iff d x).mp hany hx

theorem idToTicket_keys_nodup_aux :
    ∀ (states : List CurrentSwState) (d : List (Nat × String)),
      (d.map Prod.fst).Nodup →
      ((states.foldl (fun d s => dictInsert d s.id (pyStrip (s.jira_ticket.getD ""))) d).map
        Prod.fst).Nodup := by
  intro states
  induction states with
  | nil => intro d h; exact h
  | cons s rest ih =>
    intro d h
    rw [List.foldl_cons]
    exact ih _ (dictInsert_keys_nodup d s.id _ h)

theorem idToTicket_keys_nodup (states : List CurrentSwState) :
    ((idToTicket states).map Prod.fst).Nodup :=
  idToTicket_keys_nodup_aux states [] (by simp)

theorem idToTicket_eq_aux :
    ∀ (states : List CurrentSwState) (d : List (Nat × String)),
      (∀ s ∈ states, s.id ∉ d.map Prod.fst) →
      (states.map CurrentSwState.id).Nodup →
      states.foldl (fun d s => dictInsert d s.id (pyStrip (s.jira_ticket.getD ""))) d
        = d ++ states.map (fun s => (s.id, pyStrip (s.jira_ticket.getD ""))) := by
  intro states
  induction states with
  | nil => intro d _ _; simp
  | cons s rest ih =>
    intro d hd hnd
    rw [List.map_cons, List.nodup_cons] at hnd
    rw [List.foldl_cons, dictInsert_not_mem d s.id _ (hd s (List.mem_cons_self s rest))]
    rw [ih (d ++ [(s.id, pyStrip (s.jira_ticket.getD ""))]) ?_ hnd.2]
    · rw [List.map_cons, List.append_assoc]
      rfl
    · intro s' hs'
      rw [List.map_append, List.mem_append]
      push_neg
      constructor
      · exact hd s' (List.mem_cons_of_mem s hs')
      · intro hmem
        have : s'.id = s.id := by simpa using hmem
        exact hnd.1 (this ▸ List.mem_map.mpr ⟨s', hs', rfl⟩)

theorem idToTicket_eq (states : List CurrentSwState)
    (h : (states.map CurrentSwState.id).Nodup) :
    idToTicket states = states.map (fun s => (s.id, pyStrip (s.jira_ticket.getD ""))) := by
  unfold idToTicket
  rw [idToTicket_eq_aux states [] (by simp) h]
  simp

theorem mem_selectStates {run : Nat} {cur : List CurrentSwState} {s : CurrentSwState} :
    s ∈ selectStates run cur
      ↔ s ∈ cur ∧ s.run_id = run ∧ s.jira_ticket ≠ none ∧ s.jira_ticket ≠ some "" := by
  simp only [selectStates, List.mem_filter, Bool.and_eq_true, beq_iff_eq, bne_iff_ne, ne_eq]
  tauto

theorem selectStates_map_id_nodup (run : Nat) (cur : List CurrentSwState)
    (h : (cur.map CurrentSwState.id).Nodup) :
    ((selectStates run cur).map CurrentSwState.id).Nodup :=
  ((List.filter_sublist cur).map CurrentSwState.id).nodup h

theorem sync_empty (fetch : List String → Except PyErr (List RawIssue)) (run : Nat)
    (cur : List CurrentSwState) (jdb : List JiraStatus)
    (h : (selectStates run cur).isEmpty = true) :
    syncJiraStatuses fetch run cur jdb = ⟨jdb, [], .ok (0, 0)⟩ := by
  unfold syncJiraStatuses
  simp [h]

theorem sync_nonempty (fetch : List String → Except PyErr (List RawIssue)) (run : Nat)
    (cur : List CurrentSwState) (jdb : List JiraStatus)
    (h : (selectStates run cur).isEmpty = false) :
    syncJiraStatuses fetch run cur jdb
      = syncCore fetch (idToTicket (selectStates run cur))
          (chunks ((idToTicket (selectStates run cur)).map Prod.snd) BATCH_SIZE) jdb := by
  unfold syncJiraStatuses
  simp [h]

theorem syncCore_ok (fetch : List String → Except PyErr (List RawIssue))
    (idt : List (Nat × String)) (bs : List (List String)) (jdb : List JiraStatus)
    (stf : SyncSt) (qs : List (List String))
    (h : runBatches fetch idt bs ⟨jdb, [], []⟩ = (stf, qs, none)) :
    syncCore fetch idt bs jdb
      = ⟨bulkUpdate stf.db stf.upd, qs, .ok (stf.crs.length, stf.upd.length)⟩ := by
  unfold syncCore
  rw [h]

theorem syncCore_err (fetch : List String → Except PyErr (List RawIssue))
    (idt : List (Nat × String)) (bs : List (List String)) (jdb : List JiraStatus)
    (stf : SyncSt) (qs : List (List String)) (e : PyErr)
    (h : runBatches fetch idt bs ⟨jdb, [], []⟩ = (stf, qs, some e)) :
    syncCore fetch idt bs jdb = ⟨stf.db, qs, .error e⟩ := by
  unfold syncCore
  rw [h]

theorem runBatches_queries_of_none (fetch : List String → Except PyErr (List RawIssue))
    (idt : List (Nat × String)) :
    ∀ (bs : List (List String)) (st : SyncSt),
      (runBatches fetch idt bs st).2.2 = none →
      (runBatches fetch idt bs st).2.1 = bs := by
  intro bs
  induction bs with
  | nil => intro st _; rfl
  | cons b rest ih =>
    intro st h
    cases hf : fetchStatusFor fetch b with
    | error e =>
      rw [runBatches_cons_err fetch idt b rest st e hf] at h
      exact absurd h (by simp)
    | ok sm =>
      rcases hp : processBatch sm idt st with ⟨st', r⟩
      cases r with
      | none =>
        rw [runBatches_cons_ok_none fetch idt b rest st st' sm hf hp] at h ⊢
        rw [ih st' h]
      | some e =>
        rw [runBatches_cons_ok_err fetch idt b rest st st' sm e hf hp] at h
        exact absurd h (by simp)

theorem sync_success_shape (fetch : List String → Except PyErr (List RawIssue))
    (run : Nat) (cur : List CurrentSwState) (jdb : List JiraStatus) (c u : Nat)
    (hne : (selectStates run cur).isEmpty = false)
    (hok : (syncJiraStatuses fetch run cur jdb).result = .ok (c, u)) :
    (syncJiraStatuses fetch run cur jdb).queries
      = chunks ((idToTicket (selectStates run cur)).map Prod.snd) BATCH_SIZE := by
  rw [sync_nonempty fetch run cur jdb hne] at hok ⊢
  rcases hrb : runBatches fetch (idToTicket (selectStates run cur))
      (chunks ((idToTicket (selectStates run cur)).map Prod.snd) BATCH_SIZE)
      ⟨jdb, [], []⟩ with ⟨stf, qs, r⟩
  cases r with
  | some e =>
    rw [syncCore_err _ _ _ _ _ _ _ hrb] at hok
    exact absurd hok (by simp)
  | none =>
    rw [syncCore_ok _ _ _ _ _ _ hrb]
    show qs = _
    have hq := runBatches_queries_of_none fetch (idToTicket (selectStates run cur)) _
      ⟨jdb, [], []⟩ (by rw [hrb])
    rw [hrb] at hq
    exact hq

theorem bulkUpdate_eq_map (db : List JiraStatus) (ups : List JiraStatus) :
    ∃ F : JiraStatus → JiraStatus,
      bulkUpdate db ups = db.map F ∧ ∀ j, (F j).cve_id = j.cve_id := by
  induction ups generalizing db with
  | nil => exact ⟨fun j => j, by simp [bulkUpdate_nil], fun j => rfl⟩
  | cons u ups ih =>
    obtain ⟨F, hF, hFid⟩ :=
      ih (db.map (fun j => if j.cve_id == u.cve_id then ⟨j.cve_id, u.jira_status⟩ else j))
    refine ⟨fun j => F (if j.cve_id == u.cve_id then ⟨j.cve_id, u.jira_status⟩ else j), ?_, ?_⟩
    · rw [bulkUpdate_cons, hF, List.map_map]
      rfl
    · intro j
      rw [hFid]
      by_cases h : (j.cve_id == u.cve_id) <;> simp [h]

theorem map_fix_of_map_eq_self {α : Type} {f : α → α} :
    ∀ {l : List α}, l.map f = l → ∀ x ∈ l, f x = x := by
  intro l
  induction l with
  | nil => intro _ x hx; exact absurd hx (List.not_mem_nil x)
  | cons a l ih =>
    intro h x hx
    rw [List.map_cons] at h
    injection h with h1 h2
    rcases List.mem_cons.mp hx with he | hx
    · subst he; exact h1
    · exact ih h2 x hx

theorem map_eq_self_of_rowsFor (db : List JiraStatus) (F : JiraStatus → JiraStatus)
    (hFid : ∀ j, (F j).cve_id = j.cve_id)
    (h : ∀ cid, rowsFor cid (db.map F) = rowsFor cid db) : db.map F = db := by
  have hfix : ∀ j ∈ db, F j = j := by
    intro j hj
    have h1 : rowsFor j.cve_id (db.map F) = (rowsFor j.cve_id db).map F :=
      rowsFor_map_preserve _ _ _ hFid
    have h2 : (rowsFor j.cve_id db).map F = rowsFor j.cve_id db := by
      rw [← h1, h j.cve_id]
    exact map_fix_of_map_eq_self h2 j (self_mem_rowsFor j db hj)
  calc db.map F = db.map (fun j => j) := List.map_congr_left hfix
    _ = db := by simp

theorem chunks_120 {α : Type} (l : List α) (h : l.length = 120) :
    (chunks l BATCH_SIZE).map List.length = [50, 50, 20]
    ∧ (chunks l BATCH_SIZE).length = 3 := by
  have h1 : l ≠ [] := by
    intro he
    rw [he] at h
    simp at h
  have hd1 : (l.drop 50).length = 70 := by rw [List.length_drop, h]
  have h2 : l.drop 50 ≠ [] := by
    intro he
    rw [he] at hd1
    simp at hd1
  have hd2 : ((l.drop 50).drop 50).length = 20 := by rw [List.length_drop, hd1]
  have h3 : (l.drop 50).drop 50 ≠ [] := by
    intro he
    rw [he] at hd2
    simp at hd2
  have hd3 : (((l.drop 50).drop 50).drop 50).length = 0 := by rw [List.length_drop, hd2]
  have h4 : ((l.drop 50).drop 50).drop 50 = [] := List.eq_nil_of_length_eq_zero hd3
  have hb : (0 : Nat) < 50 := by decide
  have hun : chunks l BATCH_SIZE
      = [l.take 50, (l.drop 50).take 50, ((l.drop 50).drop 50).take 50] := by
    rw [show BATCH_SIZE = 50 from rfl]
    rw [chunks_unfold hb h1, chunks_unfold hb h2, chunks_unfold hb h3, h4, chunks_nil]
  rw [hun]
  constructor
  · simp only [List.map_cons, List.map_nil, List.length_take, h, hd1, hd2]
    decide
  · rfl

/-- C9: in every execution of `sync_jira_statuses`, `_build_jql` is applied
only to the batches the driver sends, each of which is non-empty (because
`_chunks` never yields an empty batch), and on any such batch it returns
exactly `key IN (` followed by the keys joined by `, ` followed by `)`. -/
theorem c9_jql_batches (fetch : List String → Except PyErr (List RawIssue))
    (run : Nat) (cur : List CurrentSwState) (jdb : List JiraStatus) :
    ∀ q ∈ (syncJiraStatuses fetch run cur jdb).queries,
      q ≠ [] ∧ buildJql q = "key IN (" ++ String.intercalate ", " q ++ ")" := by
  intro q hq
  refine ⟨?_, rfl⟩
  cases hemp : (selectStates run cur).isEmpty with
  | true =>
    rw [sync_empty fetch run cur jdb hemp] at hq
    exact absurd hq (List.not_mem_nil q)
  | false =>
    rw [sync_nonempty fetch run cur jdb hemp] at hq
    unfold syncCore at hq
    rcases hrb : runBatches fetch (idToTicket (selectStates run cur))
        (chunks ((idToTicket (selectStates run cur)).map Prod.snd) BATCH_SIZE)
        ⟨jdb, [], []⟩ with ⟨stf, qs, r⟩
    rw [hrb] at hq
    have hqs : q ∈ qs := by
      cases r with
      | none => exact hq
      | some e => exact hq
    obtain ⟨k, hk⟩ := runBatches_queries_take fetch (idToTicket (selectStates run cur)) _
      ⟨jdb, [], []⟩
    rw [hrb] at hk
    have hk' : qs = (chunks ((idToTicket (selectStates run cur)).map Prod.snd) BATCH_SIZE).take k :=
      hk
    rw [hk'] at hqs
    have hmem : q ∈ chunks ((idToTicket (selectStates run cur)).map Prod.snd) BATCH_SIZE :=
      List.take_subset k _ hqs
    exact (mem_chunks _ BATCH_SIZE (by decide) q hmem).1

/-- Witness for C9 on a one-record run. -/
theorem c9_jql_batches_witness :
    ["K-1"] ≠ [] ∧ buildJql ["K-1"] = "key IN (" ++ String.intercalate ", " ["K-1"] ++ ")" :=
  c9_jql_batches wFetchOpen 5 wCur1 [] ["K-1"] (by decide)

/-- C10: a tracked record whose ticket is whitespace-only (but non-empty) is
not excluded by the selection filter — only null and exactly-empty tickets
are — its ticket strips to the empty string, and that empty string is part of
a batch sent in a remote query. -/
theorem c10_whitespace_key (fetch : List String → Except PyErr (List RawIssue))
    (run : Nat) (cur : List CurrentSwState) (jdb : List JiraStatus)
    (s : CurrentSwState) (w : String) (c u : Nat)
    (hs : s ∈ cur) (hr : s.run_id = run) (ht : s.jira_ticket = some w) (hw : w ≠ "")
    (hws : ∀ ch ∈ w.data, isPyWs ch)
    (hids : (cur.map CurrentSwState.id).Nodup)
    (hok : (syncJiraStatuses fetch run cur jdb).result = .ok (c, u)) :
    s ∈ selectStates run cur
    ∧ pyStrip w = ""
    ∧ ∃ q ∈ (syncJiraStatuses fetch run cur jdb).queries, "" ∈ q := by
  have hmem : s ∈ selectStates run cur := by
    apply mem_selectStates.mpr
    refine ⟨hs, hr, ?_, ?_⟩
    · rw [ht]; exact fun h => Option.noConfusion h
    · rw [ht]
      intro he
      exact hw (Option.some_inj.mp he)
  have hstrip := pyStrip_all_ws w hws
  refine ⟨hmem, hstrip, ?_⟩
  have hne : (selectStates run cur).isEmpty = false := by
    cases he : (selectStates run cur).isEmpty with
    | false => rfl
    | true =>
      rw [List.isEmpty_iff.mp he] at hmem
      exact absurd hmem (List.not_mem_nil s)
  have hq := sync_success_shape fetch run cur jdb c u hne hok
  have hselnd := selectStates_map_id_nodup run cur hids
  have hvals : "" ∈ (idToTicket (selectStates run cur)).map Prod.snd := by
    rw [idToTicket_eq _ hselnd, List.map_map]
    apply List.mem_map.mpr
    refine ⟨s, hmem, ?_⟩
    show pyStrip (s.jira_ticket.getD "") = ""
    rw [ht]
    exact hstrip
  have hfl : "" ∈ (chunks ((idToTicket (selectStates run cur)).map Prod.snd) BATCH_SIZE).flatten := by
    rw [chunks_flatten _ _ (by decide)]
    exact hvals
  obtain ⟨q, hq', hmemq⟩ := List.mem_flatten.mp hfl
  rw [hq]
  exact ⟨q, hq', hmemq⟩

/-- Witness for C10 on a run whose only record carries the ticket `" "`. -/
theorem c10_whitespace_key_witness :
    (⟨1, 9, some " "⟩ : CurrentSwState) ∈ selectStates 9 wCurWs
    ∧ pyStrip " " = ""
    ∧ ∃ q ∈ (syncJiraStatuses wFetchEmpty 9 wCurWs []).queries, "" ∈ q :=
  c10_whitespace_key wFetchEmpty 9 wCurWs [] ⟨1, 9, some " "⟩ " " 0 0
    (by decide) rfl rfl (by decide) (by decide) (by decide) (by decide)

/-- C7: a run with 120 tracked records with distinct ids and non-empty keys
issues exactly 3 remote queries, of 50, 50 and 20 keys, whose concatenation
is the full key sequence in input order. -/
theorem c7_three_batches (fetch : List String → Except PyErr (List RawIssue))
    (run : Nat) (cur : List CurrentSwState) (jdb : List JiraStatus) (c u : Nat)
    (hlen : (selectStates run cur).length = 120)
    (hids : ((selectStates run cur).map CurrentSwState.id).Nodup)
    (hok : (syncJiraStatuses fetch run cur jdb).result = .ok (c, u)) :
    (syncJiraStatuses fetch run cur jdb).queries.length = 3
    ∧ (syncJiraStatuses fetch run cur jdb).queries.map List.length = [50, 50, 20]
    ∧ (syncJiraStatuses fetch run cur jdb).queries.flatten
        = (idToTicket (selectStates run cur)).map Prod.snd := by
  have hne : (selectStates run cur).isEmpty = false := by
    cases he : (selectStates run cur).isEmpty with
    | false => rfl
    | true =>
      rw [List.isEmpty_iff.mp he] at hlen
      simp at hlen
  have hq := sync_success_shape fetch run cur jdb c u hne hok
  have hvlen : ((idToTicket (selectStates run cur)).map Prod.snd).length = 120 := by
    rw [idToTicket_eq _ hids]
    simp [hlen]
  have hch := chunks_120 _ hvlen
  rw [hq]
  exact ⟨hch.2, hch.1, chunks_flatten _ _ (by decide)⟩

/-- Witness for C7 on 120 concrete records. -/
theorem c7_three_batches_witness :
    (syncJiraStatuses wFetchEmpty 3 wCur120 []).queries.length = 3
    ∧ (syncJiraStatuses wFetchEmpty 3 wCur120 []).queries.map List.length = [50, 50, 20]
    ∧ (syncJiraStatuses wFetchEmpty 3 wCur120 []).queries.flatten
        = (idToTicket (selectStates 3 wCur120)).map Prod.snd :=
  c7_three_batches wFetchEmpty 3 wCur120 [] 0 0 (by decide) (by decide) (by decide)

/-- C5: a tracked record of the run whose ticket is null or empty is excluded
from the selection, every remote query is built only from the selected
records' keys (the queries are a front portion of their batching), the
record's status rows are neither created nor updated, and when no record
qualifies the driver returns without querying or writing anything. -/
theorem c5_excluded_records (fetch : List String → Except PyErr (List RawIssue))
    (run : Nat) (cur : List CurrentSwState) (jdb : List JiraStatus)
    (s : CurrentSwState)
    (hs : s ∈ cur) (hr : s.run_id = run)
    (hkey : s.jira_ticket = none ∨ s.jira_ticket = some "")
    (hids : (cur.map CurrentSwState.id).Nodup) :
    s ∉ selectStates run cur
    ∧ (∃ k, (syncJiraStatuses fetch run cur jdb).queries
        = (chunks ((idToTicket (selectStates run cur)).map Prod.snd) BATCH_SIZE).take k)
    ∧ rowsFor s.id (syncJiraStatuses fetch run cur jdb).db = rowsFor s.id jdb
    ∧ (selectStates run cur = [] →
        (syncJiraStatuses fetch run cur jdb).db = jdb
        ∧ (syncJiraStatuses fetch run cur jdb).queries = []) := by
  have hnot : s ∉ selectStates run cur := by
    intro hmem
    obtain ⟨_, _, hn, he⟩ := mem_selectStates.mp hmem
    rcases hkey with hk | hk
    · exact hn hk
    · exact he hk
  refine ⟨hnot, ?_, ?_, ?_⟩
  · -- queries are a front portion of the batching of the selected keys
    cases hemp : (selectStates run cur).isEmpty with
    | true =>
      rw [sync_empty fetch run cur jdb hemp]
      exact ⟨0, rfl⟩
    | false =>
      rw [sync_nonempty fetch run cur jdb hemp]
      unfold syncCore
      rcases hrb : runBatches fetch (idToTicket (selectStates run cur))
          (chunks ((idToTicket (selectStates run cur)).map Prod.snd) BATCH_SIZE)
          ⟨jdb, [], []⟩ with ⟨stf, qs, r⟩
      obtain ⟨k, hk⟩ := runBatches_queries_take fetch (idToTicket (selectStates run cur)) _
        ⟨jdb, [], []⟩
      rw [hrb] at hk
      have hk' : qs = (chunks ((idToTicket (selectStates run cur)).map Prod.snd)
          BATCH_SIZE).take k := hk
      cases r with
      | none => exact ⟨k, hk'⟩
      | some e => exact ⟨k, hk'⟩
  · -- the record's rows are untouched
    cases hemp : (selectStates run cur).isEmpty with
    | true =>
      rw [sync_empty fetch run cur jdb hemp]
    | false =>
      have hselnd := selectStates_map_id_nodup run cur hids
      have hkeys : s.id ∉ (idToTicket (selectStates run cur)).map Prod.fst := by
        rw [idToTicket_eq _ hselnd, List.map_map]
        intro hmem
        obtain ⟨s', hs', hid⟩ := List.mem_map.mp hmem
        have hid' : s'.id = s.id := hid
        have hs'cur : s' ∈ cur := (List.filter_sublist cur).subset hs'
        have : s' = s := List.inj_on_of_nodup_map hids hs'cur hs hid'
        exact hnot (this ▸ hs')
      rw [sync_nonempty fetch run cur jdb hemp]
      unfold syncCore
      rcases hrb : runBatches fetch (idToTicket (selectStates run cur))
          (chunks ((idToTicket (selectStates run cur)).map Prod.snd) BATCH_SIZE)
          ⟨jdb, [], []⟩ with ⟨stf, qs, r⟩
      have hunt := runBatches_untouched fetch (idToTicket (selectStates run cur))
        (chunks ((idToTicket (selectStates run cur)).map Prod.snd) BATCH_SIZE)
        ⟨jdb, [], []⟩ s.id hkeys
      rw [hrb] at hunt
      cases r with
      | none =>
        show rowsFor s.id (bulkUpdate stf.db stf.upd) = rowsFor s.id jdb
        rw [rowsFor_bulkUpdate]
        have hlv : lastVal stf.upd s.id = none := hunt.2
        rw [hlv]
        exact hunt.1
      | some e => exact hunt.1
  · -- empty selection is a no-op
    intro hsel
    have hemp : (selectStates run cur).isEmpty = true := by
      rw [hsel]; rfl
    rw [sync_empty fetch run cur jdb hemp]
    exact ⟨rfl, rfl⟩

/-- Witness for C5: one null-ticket record, one empty-ticket record and one
qualifying record. -/
theorem c5_excluded_records_witness :
    (⟨1, 7, none⟩ : CurrentSwState) ∉ selectStates 7 [⟨1, 7, none⟩, ⟨2, 7, some ""⟩, ⟨3, 7, some "K"⟩]
    ∧ (∃ k, (syncJiraStatuses wFetchOpen 7 [⟨1, 7, none⟩, ⟨2, 7, some ""⟩, ⟨3, 7, some "K"⟩]
          [⟨1, "Old"⟩]).queries
        = (chunks ((idToTicket (selectStates 7
              [⟨1, 7, none⟩, ⟨2, 7, some ""⟩, ⟨3, 7, some "K"⟩])).map Prod.snd) BATCH_SIZE).take k)
    ∧ rowsFor 1 (syncJiraStatuses wFetchOpen 7
          [⟨1, 7, none⟩, ⟨2, 7, some ""⟩, ⟨3, 7, some "K"⟩] [⟨1, "Old"⟩]).db
        = rowsFor 1 [⟨1, "Old"⟩]
    ∧ (selectStates 7 [⟨1, 7, none⟩, ⟨2, 7, some ""⟩, ⟨3, 7, some "K"⟩] = [] →
        (syncJiraStatuses wFetchOpen 7 [⟨1, 7, none⟩, ⟨2, 7, some ""⟩, ⟨3, 7, some "K"⟩]
            [⟨1, "Old"⟩]).db = [⟨1, "Old"⟩]
        ∧ (syncJiraStatuses wFetchOpen 7 [⟨1, 7, none⟩, ⟨2, 7, some ""⟩, ⟨3, 7, some "K"⟩]
            [⟨1, "Old"⟩]).queries = []) :=
  c5_excluded_records wFetchOpen 7 [⟨1, 7, none⟩, ⟨2, 7, some ""⟩, ⟨3, 7, some "K"⟩]
    [⟨1, "Old"⟩] ⟨1, 7, none⟩ (by decide) rfl (Or.inl rfl) (by decide)

/-- C2: when the remote fetch for the second of three batches raises a
transport error, the records created while handling batch 1 stay persisted
(no rollback), batch 3 is never fetched, and the error propagates out of
`sync_jira_statuses`. -/
theorem c2_abort_on_transport_error (fetch : List String → Except PyErr (List RawIssue))
    (run : Nat) (cur : List CurrentSwState) (jdb : List JiraStatus)
    (b₁ b₂ b₃ : List String) (sm₁ : List (String × String)) (st₁ : SyncSt) (e : PyErr)
    (hne : (selectStates run cur).isEmpty = false)
    (hbs : chunks ((idToTicket (selectStates run cur)).map Prod.snd) BATCH_SIZE
        = [b₁, b₂, b₃])
    (hf₁ : fetchStatusFor fetch b₁ = .ok sm₁)
    (hpb : processBatch sm₁ (idToTicket (selectStates run cur)) ⟨jdb, [], []⟩ = (st₁, none))
    (hf₂ : fetchStatusFor fetch b₂ = .error e) :
    (syncJiraStatuses fetch run cur jdb).result = .error e
    ∧ (syncJiraStatuses fetch run cur jdb).queries = [b₁, b₂]
    ∧ (syncJiraStatuses fetch run cur jdb).db = st₁.db
    ∧ (∀ j ∈ st₁.crs, j ∈ (syncJiraStatuses fetch run cur jdb).db) := by
  have hrun : runBatches fetch (idToTicket (selectStates run cur)) [b₁, b₂, b₃]
      ⟨jdb, [], []⟩ = (st₁, [b₁, b₂], some e) := by
    rw [runBatches_cons_ok_none fetch _ b₁ [b₂, b₃] ⟨jdb, [], []⟩ st₁ sm₁ hf₁ hpb]
    rw [runBatches_cons_err fetch _ b₂ [b₃] st₁ e hf₂]
  have hout : syncJiraStatuses fetch run cur jdb
      = ⟨st₁.db, [b₁, b₂], .error e⟩ := by
    rw [sync_nonempty fetch run cur jdb hne, hbs]
    exact syncCore_err fetch _ [b₁, b₂, b₃] jdb st₁ [b₁, b₂] e hrun
  rw [hout]
  refine ⟨rfl, rfl, rfl, ?_⟩
  have hsub := processBatch_crs_sub sm₁ (idToTicket (selectStates run cur)) ⟨jdb, [], []⟩
    (fun j hj => absurd hj (List.not_mem_nil j))
  rw [hpb] at hsub
  exact hsub

/-- Witness for C2: 120 records, three batches, the oracle failing with HTTP
500 on the second batch after creating 50 rows for the first. -/
theorem c2_abort_on_transport_error_witness :
    (syncJiraStatuses wFetchFail 3 wCur120 []).result = .error (.transport 500)
    ∧ (syncJiraStatuses wFetchFail 3 wCur120 []).queries = [wBatch1, wBatch2]
    ∧ (syncJiraStatuses wFetchFail 3 wCur120 []).db = wSt1.db
    ∧ (∀ j ∈ wSt1.crs, j ∈ (syncJiraStatuses wFetchFail 3 wCur120 []).db) :=
  c2_abort_on_transport_error wFetchFail 3 wCur120 [] wBatch1 wBatch2 wBatch3 wSm1 wSt1
    (.transport 500) (by decide) (by decide) (by decide) (by decide) (by decide)

/-- C3: running the synchronizer twice with the same run id, the same remote
status oracle and an unchanged `CurrentSwState` table leaves the
`JiraStatus` table exactly as one run left it, and the second run creates no
new status record (it only updates in place).  The initial table is assumed
to have at most one row per owning id, the database's key invariant. -/
theorem c3_idempotent (fetch : List String → Except PyErr (List RawIssue))
    (run : Nat) (cur : List CurrentSwState) (jdb : List JiraStatus) (c u : Nat)
    (hjd : (jdb.map JiraStatus.cve_id).Nodup)
    (hok : (syncJiraStatuses fetch run cur jdb).result = .ok (c, u)) :
    (syncJiraStatuses fetch run cur (syncJiraStatuses fetch run cur jdb).db).db
      = (syncJiraStatuses fetch run cur jdb).db
    ∧ ∃ u₂, (syncJiraStatuses fetch run cur (syncJiraStatuses fetch run cur jdb).db).result
        = .ok (0, u₂) := by
  cases hemp : (selectStates run cur).isEmpty with
  | true =>
    have h1 := sync_empty fetch run cur jdb hemp
    rw [h1]
    show (syncJiraStatuses fetch run cur jdb).db = jdb
      ∧ ∃ u₂, (syncJiraStatuses fetch run cur jdb).result = .ok (0, u₂)
    rw [h1]
    exact ⟨rfl, 0, rfl⟩
  | false =>
    have h1 := sync_nonempty fetch run cur jdb hemp
    rw [h1] at hok
    rcases hrb : runBatches fetch (idToTicket (selectStates run cur))
        (chunks ((idToTicket (selectStates run cur)).map Prod.snd) BATCH_SIZE)
        ⟨jdb, [], []⟩ with ⟨stf, qs, r⟩
    cases r with
    | some e =>
      rw [syncCore_err _ _ _ _ _ _ _ hrb] at hok
      exact absurd hok (by simp)
    | none =>
      have hco := syncCore_ok _ _ _ _ _ _ hrb
      obtain ⟨sms, hsms⟩ := runBatches_maps_of_none fetch
        (idToTicket (selectStates run cur)) _ ⟨jdb, [], []⟩ (by rw [hrb])
      have hu0 : UniqueRows ((⟨jdb, [], []⟩ : SyncSt).db) := uniqueRows_of_nodup jdb hjd
      have hw0 : UpdHaveRows ⟨jdb, [], []⟩ := fun cid h => absurd rfl h
      have hrun := runBatches_run fetch (idToTicket (selectStates run cur)) _ sms
        ⟨jdb, [], []⟩ hsms hu0 hw0
      rw [hrb] at hrun
      have hndk := idToTicket_keys_nodup (selectStates run cur)
      -- per-id characterization of the table after the first run
      have hchar : ∀ cid t, (cid, t) ∈ idToTicket (selectStates run cur) →
          rowsFor cid (bulkUpdate stf.db stf.upd)
            = match lastLook sms t with
              | some v => [⟨cid, v⟩]
              | none => rowsFor cid jdb := by
        intro cid t hmem
        have hc := hrun.2.2.2.2 cid t hndk hmem
        unfold finalRows at hc
        rw [show bulkUpdate (⟨jdb, [], []⟩ : SyncSt).db (⟨jdb, [], []⟩ : SyncSt).upd = jdb
          from bulkUpdate_nil jdb] at hc
        exact hc
      have huniq1 : UniqueRows (bulkUpdate stf.db stf.upd) :=
        uniqueRows_bulkUpdate _ _ hrun.2.2.1
      have huntouched : ∀ cid, cid ∉ (idToTicket (selectStates run cur)).map Prod.fst →
          rowsFor cid (bulkUpdate stf.db stf.upd) = rowsFor cid jdb := by
        intro cid hcid
        have h := runBatches_untouched fetch (idToTicket (selectStates run cur))
          (chunks ((idToTicket (selectStates run cur)).map Prod.snd) BATCH_SIZE)
          ⟨jdb, [], []⟩ cid hcid
        rw [hrb] at h
        rw [rowsFor_bulkUpdate]
        have hlv : lastVal stf.upd cid = none := h.2
        rw [hlv]
        exact h.1
      -- rewrite the first run's outcome
      rw [h1, hco]
      show (syncJiraStatuses fetch run cur (bulkUpdate stf.db stf.upd)).db
          = bulkUpdate stf.db stf.upd
        ∧ ∃ u₂, (syncJiraStatuses fetch run cur (bulkUpdate stf.db stf.upd)).result
            = .ok (0, u₂)
      rw [sync_nonempty fetch run cur _ hemp]
      -- the second run of the batch loop
      have hu1 : UniqueRows ((⟨bulkUpdate stf.db stf.upd, [], []⟩ : SyncSt).db) := huniq1
      have hw1 : UpdHaveRows ⟨bulkUpdate stf.db stf.upd, [], []⟩ := fun cid h => absurd rfl h
      have hrun2 := runBatches_run fetch (idToTicket (selectStates run cur)) _ sms
        ⟨bulkUpdate stf.db stf.upd, [], []⟩ hsms hu1 hw1
      rcases hrb2 : runBatches fetch (idToTicket (selectStates run cur))
          (chunks ((idToTicket (selectStates run cur)).map Prod.snd) BATCH_SIZE)
          ⟨bulkUpdate stf.db stf.upd, [], []⟩ with ⟨stf₂, qs₂, r₂⟩
      rw [hrb2] at hrun2
      have hr₂ : r₂ = none := hrun2.1
      subst hr₂
      -- the second run creates nothing: every matched id already has a row
      have hcond : ∀ p ∈ idToTicket (selectStates run cur), lastLook sms p.2 ≠ none →
          rowsFor p.1 ((⟨bulkUpdate stf.db stf.upd, [], []⟩ : SyncSt).db) ≠ [] := by
        intro p hp hll
        have hmem : (p.1, p.2) ∈ idToTicket (selectStates run cur) := by
          rw [Prod.mk.eta]
          exact hp
        show rowsFor p.1 (bulkUpdate stf.db stf.upd) ≠ []
        rw [hchar p.1 p.2 hmem]
        cases hl : lastLook sms p.2 with
        | none => exact absurd hl hll
        | some v => simp
      have hnc := runBatches_nocreate fetch (idToTicket (selectStates run cur)) _ sms
        ⟨bulkUpdate stf.db stf.upd, [], []⟩ hsms hcond
      rw [hrb2] at hnc
      have hnc1 : stf₂.db = bulkUpdate stf.db stf.upd := hnc.1
      have hnc2 : stf₂.crs = [] := hnc.2
      have hco2 := syncCore_ok fetch (idToTicket (selectStates run cur)) _
        (bulkUpdate stf.db stf.upd) stf₂ qs₂ hrb2
      rw [hco2]
      constructor
      · -- second bulk_update rewrites every row with its current value
        show bulkUpdate stf₂.db stf₂.upd = bulkUpdate stf.db stf.upd
        rw [hnc1]
        have hrows2 : ∀ cid,
            rowsFor cid (bulkUpdate (bulkUpdate stf.db stf.upd) stf₂.upd)
              = rowsFor cid (bulkUpdate stf.db stf.upd) := by
          intro cid
          by_cases hk : cid ∈ (idToTicket (selectStates run cur)).map Prod.fst
          · obtain ⟨p, hp, hpk⟩ := List.mem_map.mp hk
            have hmem : (cid, p.2) ∈ idToTicket (selectStates run cur) := by
              rw [← hpk, Prod.mk.eta]
              exact hp
            have h2 := hrun2.2.2.2.2 cid p.2 hndk hmem
            unfold finalRows at h2
            rw [hnc1] at h2
            rw [show bulkUpdate ((⟨bulkUpdate stf.db stf.upd, [], []⟩ : SyncSt).db)
                ((⟨bulkUpdate stf.db stf.upd, [], []⟩ : SyncSt).upd)
                = bulkUpdate stf.db stf.upd from bulkUpdate_nil _] at h2
            rw [h2]
            cases hl : lastLook sms p.2 with
            | none => rfl
            | some v =>
              rw [hchar cid p.2 hmem, hl]
          · have h := runBatches_untouched fetch (idToTicket (selectStates run cur))
              (chunks ((idToTicket (selectStates run cur)).map Prod.snd) BATCH_SIZE)
              ⟨bulkUpdate stf.db stf.upd, [], []⟩ cid hk
            rw [hrb2] at h
            rw [rowsFor_bulkUpdate]
            have hlv : lastVal stf₂.upd cid = none := h.2
            rw [hlv]
        obtain ⟨F, hF, hFid⟩ := bulkUpdate_eq_map (bulkUpdate stf.db stf.upd) stf₂.upd
        rw [hF] at hrows2 ⊢
        exact map_eq_self_of_rowsFor _ F hFid hrows2
      · -- and the created count of the second run is zero
        refine ⟨stf₂.upd.length, ?_⟩
        show Except.ok (stf₂.crs.length, stf₂.upd.length) = Except.ok (0, stf₂.upd.length)
        rw [hnc2]
        rfl

/-- Witness for C3: one record, an oracle answering `Done`, an empty initial
table; the first run creates one row, the second updates it in place. -/
theorem c3_idempotent_witness :
    (syncJiraStatuses wFetchOpen 5 wCur1 (syncJiraStatuses wFetchOpen 5 wCur1 []).db).db
      = (syncJiraStatuses wFetchOpen 5 wCur1 []).db
    ∧ ∃ u₂, (syncJiraStatuses wFetchOpen 5 wCur1 (syncJiraStatuses wFetchOpen 5 wCur1 []).db).result
        = .ok (0, u₂) :=
  c3_idempotent wFetchOpen 5 wCur1 [] 1 0 (by decide) (by decide)

end JiraSync
